import Mathlib

/-!
Verification of the Slay rules engine and its alpha-beta search core.

The Python sources (src/engine/units.py, hex_grid.py, territory.py,
game_state.py, actions.py and src/ai/alphabeta_ai.py) are shallowly
embedded below: grids become total functions from coordinates to cell
records (cells outside the width/height bounds are inert and never
touched by any operation), in-place mutation becomes functional update
threading, and Python's wall-clock timeout machinery in the search is
modelled as never firing (the timeout path is pure control flow that
the claims under study explicitly exclude).
-/

namespace Slay

/-- A grid coordinate `(col, row)`.  Columns and rows are integers so that
the parity-dependent neighbour offsets (which subtract) stay total. -/
abbrev Pos := Int × Int

/-! ### units.py -/

/-- `UnitType` from units.py (an IntEnum with values 0..6). -/
inductive UnitType where
  | NONE
  | TREE_PINE
  | TREE_PALM
  | PEASANT
  | SPEARMAN
  | KNIGHT
  | BARON
deriving DecidableEq, Repr

/-- `unit_power` from units.py: combat power via `UNIT_STATS`, 0 for
non-combat types. -/
def unit_power : UnitType → Int
  | UnitType.PEASANT => 1
  | UnitType.SPEARMAN => 2
  | UnitType.KNIGHT => 3
  | UnitType.BARON => 4
  | _ => 0

/-- `unit_wage` from units.py. -/
def unit_wage : UnitType → Int
  | UnitType.PEASANT => 2
  | UnitType.SPEARMAN => 6
  | UnitType.KNIGHT => 18
  | UnitType.BARON => 54
  | _ => 0

def PEASANT_COST : Int := 10
def CASTLE_COST : Int := 15
def CAPITAL_DEFENSE : Int := 1
def CASTLE_DEFENSE : Int := 2

/-- The IntEnum construction `UnitType(power + 2)` used by `combine_units`
(only ever reached for power 2..4). -/
def unitTypeOfCombinedPower (s : Int) : UnitType :=
  if s = 2 then UnitType.SPEARMAN
  else if s = 3 then UnitType.KNIGHT
  else if s = 4 then UnitType.BARON
  else UnitType.NONE

/-- `combine_units` from units.py: `None` when either side is not a
combat unit or the summed powers exceed 4, otherwise the unit of the
summed power. -/
def combine_units (a b : UnitType) : Option UnitType :=
  if unit_power a = 0 ∨ unit_power b = 0 then none
  else if 4 < unit_power a + unit_power b then none
  else some (unitTypeOfCombinedPower (unit_power a + unit_power b))

/-! ### hex_grid.py: cells -/

/-- One cell of the grid (`Hex` in hex_grid.py).  The `(col,row)` identity
lives in the grid's indexing, not in the record. -/
structure Hex where
  is_land : Bool
  owner : Int
  unit : UnitType
  has_capital : Bool
  has_castle : Bool
  grave : Bool
  can_move : Bool
deriving DecidableEq, Repr

/-- The freshly constructed water cell (`Hex.__init__`). -/
def Hex.default : Hex :=
  ⟨false, -1, UnitType.NONE, false, false, false, false⟩

/-- `Hex.is_empty_land`. -/
def Hex.is_empty_land (h : Hex) : Bool :=
  h.is_land && h.unit = UnitType.NONE && !h.has_capital && !h.has_castle && !h.grave

/-- `Hex.has_tree`. -/
def Hex.has_tree (h : Hex) : Bool :=
  h.unit = UnitType.TREE_PINE || h.unit = UnitType.TREE_PALM

/-- `Hex.has_combat_unit`. -/
def Hex.has_combat_unit (h : Hex) : Bool :=
  h.unit = UnitType.PEASANT || h.unit = UnitType.SPEARMAN ||
  h.unit = UnitType.KNIGHT || h.unit = UnitType.BARON

/-- `Hex.defense_power`: unit power, raised to `CAPITAL_DEFENSE` by a
capital and `CASTLE_DEFENSE` by a castle. -/
def Hex.defense_power (h : Hex) : Int :=
  let power := unit_power h.unit
  let power := if h.has_capital then max power CAPITAL_DEFENSE else power
  let power := if h.has_castle then max power CASTLE_DEFENSE else power
  power

/-- `Hex.produces_income`. -/
def Hex.produces_income (h : Hex) : Bool :=
  h.is_land && !h.has_tree && !h.grave

/-! ### hex_grid.py: the grid -/

/-- Neighbour offsets for even columns (`NEIGHBOR_DIRS_EVEN`). -/
def NEIGHBOR_DIRS_EVEN : List (Int × Int) :=
  [(1, 0), (1, -1), (0, -1), (-1, -1), (-1, 0), (0, 1)]

/-- Neighbour offsets for odd columns (`NEIGHBOR_DIRS_ODD`). -/
def NEIGHBOR_DIRS_ODD : List (Int × Int) :=
  [(1, 1), (1, 0), (0, -1), (-1, 0), (-1, 1), (0, 1)]

/-- `HexGrid`: the dict of cells is modelled as a total function; only
positions inside the bounds are ever read or written by the engine. -/
structure HexGrid where
  width : Nat
  height : Nat
  cells : Pos → Hex

/-- Membership of the `hexes` dict: `0 ≤ col < width ∧ 0 ≤ row < height`. -/
def inBounds (g : HexGrid) (p : Pos) : Prop :=
  0 ≤ p.1 ∧ p.1 < (g.width : Int) ∧ 0 ≤ p.2 ∧ p.2 < (g.height : Int)

instance (g : HexGrid) (p : Pos) : Decidable (inBounds g p) := by
  unfold inBounds; infer_instance

/-- The keys of the `hexes` dict in insertion order
(`for col in range(width): for row in range(height)`). -/
def allPositions (g : HexGrid) : List Pos :=
  (List.range g.width).flatMap fun (c : Nat) =>
    (List.range g.height).map fun (r : Nat) => ((c : Int), (r : Int))

/-- `HexGrid.get`: `None` outside the bounds. -/
def HexGrid.get (g : HexGrid) (p : Pos) : Option Hex :=
  if inBounds g p then some (g.cells p) else none

/-- In-place mutation of one cell. -/
def updateCell (g : HexGrid) (p : Pos) (f : Hex → Hex) : HexGrid :=
  { g with cells := Function.update g.cells p (f (g.cells p)) }

/-- `HexGrid.get_neighbors`, by position: parity-dependent offsets,
out-of-range neighbours dropped. -/
def neighborsPos (g : HexGrid) (p : Pos) : List Pos :=
  let dirs := if p.1 % 2 = 1 then NEIGHBOR_DIRS_ODD else NEIGHBOR_DIRS_EVEN
  dirs.filterMap fun d =>
    let q : Pos := (p.1 + d.1, p.2 + d.2)
    if inBounds g q then some q else none

/-- `HexGrid.get_relative_power`: the defense bubble. -/
def get_relative_power (g : HexGrid) (p : Pos) : Int :=
  (neighborsPos g p).foldl
    (fun power n =>
      if (g.cells n).owner = (g.cells p).owner
      then max power (g.cells n).defense_power
      else power)
    (g.cells p).defense_power

/-- `HexGrid.is_coastal`: fewer than 6 land neighbours. -/
def is_coastal (g : HexGrid) (p : Pos) : Bool :=
  ((neighborsPos g p).countP fun n => (g.cells n).is_land) < 6

/-- `HexGrid.all_land`, as a list of positions in dict order. -/
def all_land (g : HexGrid) : List Pos :=
  (allPositions g).filter fun p => (g.cells p).is_land

/-! ### hex_grid.py: flood fill

`HexGrid.flood_fill` is a BFS over land cells of one owner.  The Python
`while queue:` loop is modelled with explicit fuel; `allPositions.length + 1`
units of fuel always suffice because each iteration pops one queue entry
and every entry was added to the (duplicate-free, in-bounds) visited set
when enqueued. -/

/-- The body of the `for n in get_neighbors(current)` loop: extend
`(visited, queue)` by the unvisited same-owner land neighbours. -/
def scanNbrs (g : HexGrid) (owner : Int) :
    List Pos → List Pos → List Pos → List Pos × List Pos
  | [], visited, queue => (visited, queue)
  | n :: ns, visited, queue =>
    if n ∉ visited ∧ (g.cells n).is_land ∧ (g.cells n).owner = owner then
      scanNbrs g owner ns (n :: visited) (queue ++ [n])
    else
      scanNbrs g owner ns visited queue

/-- The `while queue:` loop of `flood_fill`. -/
def floodLoop (g : HexGrid) (owner : Int) :
    Nat → List Pos → List Pos → List Pos → List Pos
  | 0, _, _, result => result
  | _ + 1, [], _, result => result
  | fuel + 1, current :: rest, visited, result =>
    floodLoop g owner fuel
      (scanNbrs g owner (neighborsPos g current) visited rest).2
      (scanNbrs g owner (neighborsPos g current) visited rest).1
      (result ++ [current])

/-- `HexGrid.flood_fill` from a starting position. -/
def flood_fill (g : HexGrid) (start : Pos) (owner : Int) : List Pos :=
  if ¬(g.cells start).is_land ∨ (g.cells start).owner ≠ owner then []
  else floodLoop g owner ((allPositions g).length + 1) [start] [start] []

/-! ### territory.py

A `Territory` is a derived view: a list of member positions, an owner and
a treasury.  The `_capital_hex` cache of the Python class is a pure
performance device and is modelled by the membership scan it caches
(`capital_hex` rescans `self.hexes` for `has_capital` whenever the cache
misses; the only way the cache can go stale is a capital captured by
`move_unit`, and the `old_caps` entry that staleness produces is dead:
its recorded owner never matches the owner of any recomputed territory
containing the captured cell, so neither gold restoration nor capital
preference can consult it). -/

structure Territory where
  hexes : List Pos
  owner : Int
  gold : Int
deriving DecidableEq, Repr

/-- `Territory.capital_hex` (position form): first member carrying the
capital flag. -/
def capHex (g : HexGrid) (t : Territory) : Option Pos :=
  t.hexes.find? fun p => (g.cells p).has_capital

/-- `Territory.income`. -/
def income (g : HexGrid) (t : Territory) : Int :=
  (t.hexes.countP fun p => (g.cells p).produces_income : Int)

/-- `Territory.wages`. -/
def wages (g : HexGrid) (t : Territory) : Int :=
  (t.hexes.map fun p => unit_wage (g.cells p).unit).sum

/-- `Territory.net_income`. -/
def net_income (g : HexGrid) (t : Territory) : Int :=
  income g t - wages g t

/-- `Hex.clear_unit` applied to the cell at `p`. -/
def clear_unit (g : HexGrid) (p : Pos) : HexGrid :=
  updateCell g p fun c => { c with unit := UnitType.NONE, can_move := false }

/-- `Hex.kill_unit` applied to the cell at `p`. -/
def kill_unit (g : HexGrid) (p : Pos) : HexGrid :=
  if (g.cells p).has_combat_unit then
    updateCell g p fun c =>
      { c with unit := UnitType.NONE, grave := true, can_move := false }
  else g

/-- `Territory._go_bankrupt`: kill every member unit (gold is reset by the
caller's record update). -/
def go_bankrupt (g : HexGrid) (t : Territory) : HexGrid :=
  t.hexes.foldl kill_unit g

/-- `Territory.collect_income`: returns the updated grid and territory and
the bankruptcy flag. -/
def collect_income (g : HexGrid) (t : Territory) : HexGrid × Territory × Bool :=
  if t.gold + net_income g t < 0 then
    (go_bankrupt g t, { t with gold := 0 }, true)
  else
    (g, { t with gold := t.gold + net_income g t }, false)

/-- `Territory._place_capital` at `p`. -/
def place_capital (g : HexGrid) (p : Pos) : HexGrid :=
  updateCell g p fun c => { c with has_capital := true, grave := false }

/-- First occurrence of the maximum by a strict comparison: the head of a
stable descending Python `list.sort`. -/
def firstMaxBy {α : Type} (lt : α → α → Bool) : α → List α → α
  | best, [] => best
  | best, x :: xs => if lt best x then firstMaxBy lt x xs else firstMaxBy lt best xs

/-- `Territory.ensure_capital`.  `avoid` is the `avoid_adjacent_to` set,
`preferred` the `preferred_pos` merge hint. -/
def ensure_capital (g : HexGrid) (t : Territory)
    (avoid : Option (List Pos)) (preferred : Option Pos) : HexGrid :=
  if 2 ≤ t.hexes.length then
    match capHex g t with
    | some _ => g
    | none =>
      match preferred.bind (fun pp => if pp ∈ t.hexes then some pp else none) with
      | some pp => place_capital g pp
      | none =>
        let candidates := t.hexes.filter fun p =>
          ¬(g.cells p).has_combat_unit ∧ ¬(g.cells p).has_castle ∧
          ¬(g.cells p).has_tree
        match candidates with
        | c0 :: _ =>
          let chosen := match avoid with
            | some av =>
              match candidates.filter (fun p => p ∉ av) with
              | s0 :: _ => s0
              | [] => c0
            | none => c0
          place_capital g chosen
        | [] =>
          match t.hexes.filter (fun p => (g.cells p).has_castle) with
          | h0 :: _ =>
            place_capital (updateCell g h0 fun c => { c with has_castle := false }) h0
          | [] =>
            match t.hexes.filter (fun p => (g.cells p).has_combat_unit) with
            | u0 :: us =>
              let h0 := firstMaxBy
                (fun a b => unit_power (g.cells a).unit < unit_power (g.cells b).unit)
                u0 us
              place_capital
                (updateCell g h0 fun c =>
                  { c with unit := UnitType.NONE, grave := true, can_move := false })
                h0
            | [] =>
              match t.hexes with
              | h0 :: _ =>
                place_capital (updateCell g h0 fun c => { c with unit := UnitType.NONE }) h0
              | [] => g
  else
    t.hexes.foldl (fun g' p => updateCell g' p fun c => { c with has_capital := false }) g

/-! ### game_state.py

`GameState` is modelled by the fields the engine operations read and
write: the grid, the authoritative territory list, the current player
index and the player count.  Player ids coincide with player indices
(`Player(i)` for `i in range(num_players)`), so the current player id is
the index cast to `Int`. -/

structure GameState where
  grid : HexGrid
  territories : List Territory
  current_player_idx : Nat
  num_players : Nat

def GameState.pid (gs : GameState) : Int := (gs.current_player_idx : Int)

/-- An entry of the `old_caps` dict: capital position mapped to
`(owner, gold, territory size)`.  The dict is modelled as an association
list built by prepending, so `List.lookup` (first match) realises the
dict's last-write-wins semantics. -/
abbrev CapEntry := Pos × Int × Int × Nat

/-- The `old_caps` dict of `refresh_territories`. -/
def oldCaps (g : HexGrid) (ts : List Territory) : List CapEntry :=
  ts.foldl
    (fun acc t =>
      match capHex g t with
      | some c => (c, t.owner, t.gold, t.hexes.length) :: acc
      | none => acc)
    []

/-- The `priority_cap_pos` computation of `refresh_territories`: the
capital of the first old territory containing the merge-priority hint. -/
def priorityCapPos (g : HexGrid) (ts : List Territory) (mp : Option Pos) : Option Pos :=
  match mp with
  | none => none
  | some p =>
    match ts.find? (fun t => p ∈ t.hexes) with
    | some t => capHex g t
    | none => none

/-- The capital-clearing pass (`for h in all_land: h.has_capital = False`):
each iteration writes only its own cell, so the loop is the pointwise map. -/
def clearCapitals (g : HexGrid) : HexGrid :=
  { g with cells := fun p =>
      if inBounds g p ∧ (g.cells p).is_land
      then { g.cells p with has_capital := false }
      else g.cells p }

/-- The flood-fill loop of `refresh_territories`: walk the land cells,
skipping visited or unowned ones, and collect one fresh `Territory`
(gold 0) per region. -/
def buildTerritories (g : HexGrid) :
    List Pos → List Pos → List Territory → List Pos × List Territory
  | [], visited, ts => (visited, ts)
  | p :: ps, visited, ts =>
    if p ∈ visited ∨ (g.cells p).owner < 0 then
      buildTerritories g ps visited ts
    else
      let region := flood_fill g p (g.cells p).owner
      let visited' := visited ++ region
      let ts' := if region = [] then ts else ts ++ [⟨region, (g.cells p).owner, 0⟩]
      buildTerritories g ps visited' ts'

/-- One `merged_caps` entry: `(capital position, gold, old size)`. -/
abbrev MergedCap := Pos × Int × Nat

/-- The `merged_caps` list for a freshly flooded territory. -/
def mergedCaps (caps : List CapEntry) (t : Territory) : List MergedCap :=
  t.hexes.filterMap fun p =>
    match caps.lookup p with
    | some (po, pg, psz) => if po = t.owner then some (p, pg, psz) else none
    | none => none

/-- The sort key of `merged_caps.sort`: `(size, pos == priority_cap_pos)`,
compared lexicographically. -/
def mergedCapLt (priority : Option Pos) (a b : MergedCap) : Bool :=
  a.2.2 < b.2.2 ∨ (a.2.2 = b.2.2 ∧ ¬(some a.1 = priority) ∧ some b.1 = priority)

/-- `preferred_cap`: head of the stable descending sort of `merged_caps`,
i.e. the first occurrence of the lexicographic maximum. -/
def preferredCap (priority : Option Pos) : List MergedCap → Option Pos
  | [] => none
  | m :: ms => some (firstMaxBy (mergedCapLt priority) m ms).1

/-- The gold-and-capital restoration pass for one territory. -/
def restoreTerritory (caps : List CapEntry) (priority : Option Pos)
    (avoid : Option (Int × List Pos)) (g : HexGrid) (t : Territory) :
    HexGrid × Territory :=
  let merged := mergedCaps caps t
  let t' := { t with gold := (merged.map fun m => m.2.1).sum }
  let av := match avoid with
    | some (ow, zone) => if ow = t.owner then some zone else none
    | none => none
  (ensure_capital g t' av (preferredCap priority merged), t')

/-- `GameState.refresh_territories`.  `capital_avoid` is only ever passed
a single-owner dict by the engine, so it is an optional `(owner, zone)`
pair here. -/
def refresh_territories (g : HexGrid) (ts : List Territory)
    (capital_avoid : Option (Int × List Pos)) (merge_priority_pos : Option Pos) :
    HexGrid × List Territory :=
  let caps := oldCaps g ts
  let priority := priorityCapPos g ts merge_priority_pos
  let g1 := clearCapitals g
  let built := buildTerritories g1 (all_land g1) [] []
  built.2.foldl
    (fun (acc : HexGrid × List Territory) t =>
      let gt := restoreTerritory caps priority capital_avoid acc.1 t
      (gt.1, acc.2 ++ [gt.2]))
    (g1, [])

/-! #### Tree growth (`GameState._grow_trees`)

Both passes write only the cell each iteration is looking at and read
only that cell, the immutable `is_land` flags of its neighbours, and the
pre-pass snapshot sets, so each mutating loop is modelled by the
pointwise map it computes. -/

/-- Membership in the `original_palms` snapshot. -/
def origPalm (g : HexGrid) (p : Pos) : Prop :=
  (g.cells p).is_land = true ∧ (g.cells p).unit = UnitType.TREE_PALM

instance (g : HexGrid) (p : Pos) : Decidable (origPalm g p) := by
  unfold origPalm; infer_instance

/-- Membership in the `original_pines` snapshot. -/
def origPine (g : HexGrid) (p : Pos) : Prop :=
  (g.cells p).is_land = true ∧ (g.cells p).unit = UnitType.TREE_PINE

instance (g : HexGrid) (p : Pos) : Decidable (origPine g p) := by
  unfold origPine; infer_instance

/-- Pass 2 of `_grow_trees`: convert the acting player's graves to trees. -/
def convertGraves (g : HexGrid) (pid : Int) : HexGrid :=
  { g with cells := fun p =>
      let c := g.cells p
      if inBounds g p ∧ c.is_land ∧ c.owner = pid ∧ c.grave then
        { c with
          unit := if is_coastal g p then UnitType.TREE_PALM else UnitType.TREE_PINE,
          grave := false }
      else c }

/-- Pass 3 of `_grow_trees`: spread trees from the snapshot.  `g0` is the
pre-pass grid holding the snapshot, `g` the grid after grave conversion.
`is_coastal` only reads `is_land`, which neither pass touches, so the
snapshot grid is used for it interchangeably. -/
def spreadTrees (g0 g : HexGrid) (pid : Int) : HexGrid :=
  { g with cells := fun p =>
      let c := g.cells p
      if inBounds g p ∧ c.is_land ∧ c.owner = pid ∧
         c.unit = UnitType.NONE ∧ ¬c.has_capital ∧ ¬c.has_castle ∧ ¬c.grave then
        if is_coastal g p then
          if (neighborsPos g p).any (fun n => decide (origPalm g0 n)) then
            { c with unit := UnitType.TREE_PALM }
          else c
        else
          if 2 ≤ (neighborsPos g p).countP (fun n => decide (origPine g0 n)) then
            { c with unit := UnitType.TREE_PINE }
          else c
      else c }

/-- `GameState._grow_trees`. -/
def grow_trees (g : HexGrid) (pid : Int) : HexGrid :=
  spreadTrees g (convertGraves g pid) pid

/-! #### Purchases and movement -/

/-- `GameState.buy_peasant`.  The territory argument is an index into
`gs.territories` (callers pass objects from that list). -/
def buy_peasant (gs : GameState) (ti : Nat) (target : Pos) : Bool × GameState :=
  match gs.territories.get? ti with
  | none => (false, gs)
  | some t =>
    if t.owner ≠ gs.pid then (false, gs)
    else if t.gold < PEASANT_COST then (false, gs)
    else if target ∉ t.hexes then (false, gs)
    else if (gs.grid.cells target).has_combat_unit then
      match combine_units (gs.grid.cells target).unit UnitType.PEASANT with
      | none => (false, gs)
      | some cu =>
        (true, { gs with
                  grid := updateCell gs.grid target fun c =>
                    { c with unit := cu, can_move := true },
                  territories := gs.territories.set ti
                    { t with gold := t.gold - PEASANT_COST } })
    else if (gs.grid.cells target).is_empty_land ∨ (gs.grid.cells target).has_tree ∨
        (gs.grid.cells target).grave then
      (true, { gs with
                grid := updateCell gs.grid target fun c =>
                  { c with unit := UnitType.PEASANT, grave := false, can_move := true },
                territories := gs.territories.set ti
                  { t with gold := t.gold - PEASANT_COST } })
    else (false, gs)

/-- `GameState.buy_castle`. -/
def buy_castle (gs : GameState) (ti : Nat) (target : Pos) : Bool × GameState :=
  match gs.territories.get? ti with
  | none => (false, gs)
  | some t =>
    if t.owner ≠ gs.pid then (false, gs)
    else if t.gold < CASTLE_COST then (false, gs)
    else if target ∉ t.hexes then (false, gs)
    else if (gs.grid.cells target).has_castle ∨ (gs.grid.cells target).has_capital then
      (false, gs)
    else if (gs.grid.cells target).has_combat_unit then (false, gs)
    else if ¬(gs.grid.cells target).is_land then (false, gs)
    else
      (true, { gs with
                grid := updateCell gs.grid target fun c =>
                  { c with has_castle := true, grave := false, unit := UnitType.NONE },
                territories := gs.territories.set ti
                  { t with gold := t.gold - CASTLE_COST } })

/-- The capital-capture gold zeroing of `move_unit`: zero the first
territory of `own` containing `p` (the Python loop breaks after one). -/
def zeroGoldFirst (own : Int) (p : Pos) : List Territory → List Territory
  | [] => []
  | t :: ts =>
    if t.owner = own ∧ p ∈ t.hexes then { t with gold := 0 } :: ts
    else t :: zeroGoldFirst own p ts

/-- The successful-capture tail of `move_unit`: zero the victim's gold if
a capital was taken, flip the cell, clear the source, and refresh the
territories with the merge-priority hint (and the capital-avoid zone when
a capital fell). -/
def applyCapture (gs : GameState) (fp tp : Pos) : GameState :=
  let old_owner := (gs.grid.cells tp).owner
  let capturedCap := (gs.grid.cells tp).has_capital
  let ts1 := if capturedCap then zeroGoldFirst old_owner tp gs.territories
             else gs.territories
  let g1 := updateCell gs.grid tp fun c =>
    { c with owner := gs.pid, unit := (gs.grid.cells fp).unit, has_capital := false,
             has_castle := false, grave := false, can_move := false }
  let g2 := clear_unit g1 fp
  let avoid := if capturedCap then some (old_owner, tp :: neighborsPos g2 tp)
               else none
  let rt := refresh_territories g2 ts1 avoid (some fp)
  { gs with grid := rt.1, territories := rt.2 }

/-- The reposition mutation of `move_unit`: place unit `u` on `tp` with
the given movement flag (clearing the grave flag when `clearGrave`), then
clear the source cell.  The four reposition branches of `move_unit` are
instances of this shape. -/
def applyRepos (gs : GameState) (fp tp : Pos) (u : UnitType) (cm clearGrave : Bool) :
    GameState :=
  { gs with
     grid := clear_unit
       (updateCell gs.grid tp fun c =>
         { c with unit := u, can_move := cm,
                  grave := if clearGrave then false else c.grave }) fp }

/-- `GameState.move_unit`. -/
def move_unit (gs : GameState) (fp tp : Pos) : Bool × GameState :=
  if (gs.grid.cells fp).owner ≠ gs.pid then (false, gs)
  else if ¬(gs.grid.cells fp).has_combat_unit then (false, gs)
  else if ¬(gs.grid.cells fp).can_move then (false, gs)
  else if ¬(gs.grid.cells tp).is_land then (false, gs)
  else
    match gs.territories.find? (fun t => t.owner = gs.pid ∧ fp ∈ t.hexes) with
    | none => (false, gs)
    | some st =>
      if ¬((st.hexes.any fun h => tp ∈ neighborsPos gs.grid h) ∨ tp ∈ st.hexes) ∧
          tp ∉ st.hexes then (false, gs)
      else if (gs.grid.cells tp).owner = gs.pid ∧ tp ∈ st.hexes then
        if (gs.grid.cells tp).has_combat_unit then
          match combine_units (gs.grid.cells tp).unit (gs.grid.cells fp).unit with
          | none => (false, gs)
          | some cu => (true, applyRepos gs fp tp cu true false)
        else if (gs.grid.cells tp).has_tree then
          (true, applyRepos gs fp tp (gs.grid.cells fp).unit false false)
        else if (gs.grid.cells tp).grave then
          (true, applyRepos gs fp tp (gs.grid.cells fp).unit false true)
        else if (gs.grid.cells tp).is_empty_land then
          (true, applyRepos gs fp tp (gs.grid.cells fp).unit true false)
        else (false, gs)
      else if (gs.grid.cells tp).owner ≠ gs.pid then
        if ¬(st.hexes.any fun h => tp ∈ neighborsPos gs.grid h) then (false, gs)
        else if unit_power (gs.grid.cells fp).unit ≤ get_relative_power gs.grid tp then
          (false, gs)
        else (true, applyCapture gs fp tp)
      else (false, gs)

/-! ### actions.py -/

inductive ActionType where
  | BUY_PEASANT
  | BUY_CASTLE
  | MOVE_UNIT
  | END_TURN
deriving DecidableEq, Repr

/-- `Action` data object; unused fields default to `none` as in Python. -/
structure Action where
  type : ActionType
  from_pos : Option Pos := none
  to_pos : Option Pos := none
  territory_idx : Option Nat := none
deriving DecidableEq, Repr

/-- `Territory.neighboring_hexes` (position form).  Python collects into a
set; only membership is consumed by the engine, so the model deduplicates
keeping first occurrences. -/
def neighboring_hexes (g : HexGrid) (t : Territory) : List Pos :=
  ((t.hexes.flatMap fun p => neighborsPos g p).filter fun n =>
    n ∉ t.hexes ∧ (g.cells n).is_land).dedup

/-- The BUY_PEASANT proposals of `get_legal_actions` for one territory. -/
def buyPeasantActions (g : HexGrid) (ti : Nat) (t : Territory) : List Action :=
  if PEASANT_COST ≤ t.gold then
    t.hexes.filterMap fun p =>
      if (g.cells p).is_empty_land ∨ (g.cells p).grave ∨ (g.cells p).has_tree then
        some ⟨ActionType.BUY_PEASANT, none, some p, some ti⟩
      else if (g.cells p).has_combat_unit then
        match combine_units (g.cells p).unit UnitType.PEASANT with
        | some _ => some ⟨ActionType.BUY_PEASANT, none, some p, some ti⟩
        | none => none
      else none
  else []

/-- The BUY_CASTLE proposals of `get_legal_actions` for one territory. -/
def buyCastleActions (g : HexGrid) (ti : Nat) (t : Territory) : List Action :=
  if CASTLE_COST ≤ t.gold then
    t.hexes.filterMap fun p =>
      if ((g.cells p).is_empty_land ∨ (g.cells p).grave) ∧
          ¬(g.cells p).has_castle ∧ ¬(g.cells p).has_capital then
        some ⟨ActionType.BUY_CASTLE, none, some p, some ti⟩
      else none
  else []

/-- The MOVE_UNIT proposals of `get_legal_actions` for one territory. -/
def moveActions (g : HexGrid) (t : Territory) : List Action :=
  (t.hexes.filter fun p => (g.cells p).has_combat_unit ∧ (g.cells p).can_move).flatMap
    fun hp =>
      (t.hexes.filterMap fun q =>
        if q = hp then none
        else if (g.cells q).is_empty_land ∨ (g.cells q).grave then
          some ⟨ActionType.MOVE_UNIT, some hp, some q, none⟩
        else if (g.cells q).has_tree then
          some ⟨ActionType.MOVE_UNIT, some hp, some q, none⟩
        else if (g.cells q).has_combat_unit then
          match combine_units (g.cells q).unit (g.cells hp).unit with
          | some _ => some ⟨ActionType.MOVE_UNIT, some hp, some q, none⟩
          | none => none
        else none) ++
      ((neighboring_hexes g t).filterMap fun q =>
        if (g.cells q).owner = t.owner then none
        else if get_relative_power g q < unit_power (g.cells hp).unit then
          some ⟨ActionType.MOVE_UNIT, some hp, some q, none⟩
        else none)

/-- `get_legal_actions`. -/
def get_legal_actions (gs : GameState) : List Action :=
  ((gs.territories.filter fun t => t.owner = gs.pid).enum.flatMap fun ti =>
    buyPeasantActions gs.grid ti.1 ti.2 ++ buyCastleActions gs.grid ti.1 ti.2 ++
    moveActions gs.grid ti.2) ++
  [⟨ActionType.END_TURN, none, none, none⟩]

/-! ### alphabeta_ai.py: the reduced search model

The search mutates the live grid in place and undoes its changes; the
embedding threads the grid functionally.  The wall-clock deadline checks
(`_deadline`, `_timed_out`) are modelled as never firing — exactly the
"no timeout triggered" regime of the claims — and the node-count
statistics are dropped. -/

/-- A reduced search action (the `(action_type, from_pos, to_pos)` tuples). -/
inductive SAction where
  | capture (fp tp : Pos)
  | move (fp tp : Pos)
  | endTurn
deriving DecidableEq, Repr

/-- An undo record of `fast_apply`. -/
inductive Undo where
  | capture (fp tp : Pos) (fu : UnitType) (fcm : Bool) (tow : Int)
      (tu : UnitType) (tcap tcas tgr tcm : Bool)
  | move (fp tp : Pos) (fu : UnitType) (fcm : Bool) (tu : UnitType) (tcm : Bool)
  | endTurn (saved : List (Pos × Bool))
deriving DecidableEq, Repr

/-- `get_search_actions`: captures first, then repositions, then END_TURN. -/
def get_search_actions (g : HexGrid) (pid : Int) : List SAction :=
  let acc := (allPositions g).foldl
    (fun (acc : List SAction × List SAction) p =>
      let h := g.cells p
      if ¬h.is_land ∨ h.owner ≠ pid then acc
      else if ¬h.has_combat_unit ∨ ¬h.can_move then acc
      else
        (neighborsPos g p).foldl
          (fun (acc : List SAction × List SAction) n =>
            let nh := g.cells n
            if ¬nh.is_land then acc
            else if nh.owner ≠ pid then
              if get_relative_power g n < unit_power h.unit then
                (acc.1 ++ [SAction.capture p n], acc.2)
              else acc
            else
              if nh.unit = UnitType.NONE ∧ ¬nh.has_capital ∧
                 ¬nh.has_castle ∧ ¬nh.grave then
                (acc.1, acc.2 ++ [SAction.move p n])
              else acc)
          acc)
    ([], [])
  acc.1 ++ acc.2 ++ [SAction.endTurn]

/-- The END_TURN snapshot of `fast_apply`: the `can_move` flags of the
next player's combat units, keyed by position. -/
def savedMoves (g : HexGrid) (npid : Int) : List (Pos × Bool) :=
  (allPositions g).filterMap fun p =>
    if (g.cells p).owner = npid ∧ (g.cells p).has_combat_unit then
      some (p, (g.cells p).can_move)
    else none

/-- `fast_apply`: apply a reduced action, returning the next player index,
the mutated grid and the undo record. -/
def fast_apply (g : HexGrid) (pidx nplayers : Nat) :
    SAction → Nat × HexGrid × Undo
  | SAction.capture fp tp =>
    let fh := g.cells fp
    let th := g.cells tp
    let u := Undo.capture fp tp fh.unit fh.can_move th.owner th.unit
      th.has_capital th.has_castle th.grave th.can_move
    let g1 := updateCell g tp fun c =>
      { c with owner := fh.owner, unit := fh.unit, has_capital := false,
               has_castle := false, grave := false, can_move := false }
    let g2 := updateCell g1 fp fun c =>
      { c with unit := UnitType.NONE, can_move := false }
    (pidx, g2, u)
  | SAction.move fp tp =>
    let fh := g.cells fp
    let th := g.cells tp
    let u := Undo.move fp tp fh.unit fh.can_move th.unit th.can_move
    let g1 := updateCell g tp fun c =>
      { c with unit := fh.unit, can_move := true }
    let g2 := updateCell g1 fp fun c =>
      { c with unit := UnitType.NONE, can_move := false }
    (pidx, g2, u)
  | SAction.endTurn =>
    let nidx := (pidx + 1) % nplayers
    let npid : Int := (nidx : Int)
    let saved := savedMoves g npid
    let g' : HexGrid :=
      { g with cells := fun p =>
          if inBounds g p ∧ (g.cells p).owner = npid ∧ (g.cells p).has_combat_unit
          then { g.cells p with can_move := true }
          else g.cells p }
    (nidx, g', Undo.endTurn saved)

/-- `fast_undo`: restore every field the apply touched. -/
def fast_undo (g : HexGrid) : Undo → HexGrid
  | Undo.capture fp tp fu fcm tow tu tcap tcas tgr tcm =>
    let g1 := updateCell g fp fun c => { c with unit := fu, can_move := fcm }
    updateCell g1 tp fun c =>
      { c with owner := tow, unit := tu, has_capital := tcap,
               has_castle := tcas, grave := tgr, can_move := tcm }
  | Undo.move fp tp fu fcm tu tcm =>
    let g1 := updateCell g fp fun c => { c with unit := fu, can_move := fcm }
    updateCell g1 tp fun c => { c with unit := tu, can_move := tcm }
  | Undo.endTurn saved =>
    saved.foldl (fun g' pc => updateCell g' pc.1 fun c => { c with can_move := pc.2 }) g

def INF : Int := 100000

/-- `eval_hex_count`: owned land cells minus opponent-owned land cells. -/
def eval_hex_count (g : HexGrid) (pid : Int) : Int :=
  (allPositions g).foldl
    (fun s p =>
      let h := g.cells p
      if ¬h.is_land then s
      else if h.owner = pid then s + 1
      else if 0 ≤ h.owner then s - 1
      else s)
    0

/-- The body of the `eval_hex_count` loop as a named step function. -/
def evalStep (g : HexGrid) (pid : Int) (s : Int) (p : Pos) : Int :=
  if ¬(g.cells p).is_land then s
  else if (g.cells p).owner = pid then s + 1
  else if 0 ≤ (g.cells p).owner then s - 1
  else s

/-- The action loop of a maximising `alphabeta` node.  `recur` is the
depth-decremented recursive call. -/
def abMax (recur : HexGrid → Nat → Int → Int → Int)
    (g : HexGrid) (pidx nplayers : Nat) (beta : Int) :
    List SAction → Int → Int → Int
  | [], value, _ => value
  | a :: rest, value, alpha =>
    let na := fast_apply g pidx nplayers a
    let v := recur na.2.1 na.1 alpha beta
    let value' := if value < v then v else value
    let alpha' := if alpha < value' then value' else alpha
    if beta ≤ alpha' then value'
    else abMax recur g pidx nplayers beta rest value' alpha'

/-- The action loop of a minimising `alphabeta` node. -/
def abMin (recur : HexGrid → Nat → Int → Int → Int)
    (g : HexGrid) (pidx nplayers : Nat) (alpha : Int) :
    List SAction → Int → Int → Int
  | [], value, _ => value
  | a :: rest, value, beta =>
    let na := fast_apply g pidx nplayers a
    let v := recur na.2.1 na.1 alpha beta
    let value' := if v < value then v else value
    let beta' := if value' < beta then value' else beta
    if beta' ≤ alpha then value'
    else abMin recur g pidx nplayers alpha rest value' beta'

/-- `alphabeta` (no timeout): fail-soft alpha-beta over the reduced model;
the max/min role is decided by whose turn it is, and the player only
changes at END_TURN. -/
def alphabeta (nplayers : Nat) (max_pid : Int) :
    Nat → HexGrid → Nat → Int → Int → Int
  | 0, g, _, _, _ => eval_hex_count g max_pid
  | depth + 1, g, pidx, alpha, beta =>
    let actions := get_search_actions g (pidx : Int)
    if (pidx : Int) = max_pid then
      abMax (alphabeta nplayers max_pid depth) g pidx nplayers beta actions (-INF) alpha
    else
      abMin (alphabeta nplayers max_pid depth) g pidx nplayers alpha actions INF beta

/-- The brute-force minimax reference over the same reduced action model:
no pruning, same action generation, same apply semantics, same leaf
evaluation. -/
def minimax (nplayers : Nat) (max_pid : Int) :
    Nat → HexGrid → Nat → Int
  | 0, g, _ => eval_hex_count g max_pid
  | depth + 1, g, pidx =>
    let actions := get_search_actions g (pidx : Int)
    if (pidx : Int) = max_pid then
      actions.foldl
        (fun value a =>
          let na := fast_apply g pidx nplayers a
          max value (minimax nplayers max_pid depth na.2.1 na.1))
        (-INF)
    else
      actions.foldl
        (fun value a =>
          let na := fast_apply g pidx nplayers a
          min value (minimax nplayers max_pid depth na.2.1 na.1))
        INF

/-- One child value of the brute-force reference: the `minimax` score of
the position reached by one reduced action. -/
def mmStep (nplayers : Nat) (max_pid : Int) (d : Nat) (g : HexGrid) (pidx : Nat)
    (a : SAction) : Int :=
  minimax nplayers max_pid d (fast_apply g pidx nplayers a).2.1
    (fast_apply g pidx nplayers a).1

/-- The max-node fold of the brute-force reference, continued from `v`. -/
def mmFoldMax (nplayers : Nat) (max_pid : Int) (d : Nat) (g : HexGrid) (pidx : Nat)
    (l : List SAction) (v : Int) : Int :=
  l.foldl (fun v a => max v (mmStep nplayers max_pid d g pidx a)) v

/-- The min-node fold of the brute-force reference, continued from `v`. -/
def mmFoldMin (nplayers : Nat) (max_pid : Int) (d : Nat) (g : HexGrid) (pidx : Nat)
    (l : List SAction) (v : Int) : Int :=
  l.foldl (fun v a => min v (mmStep nplayers max_pid d g pidx a)) v

/-- The root loop of `search_at_depth`: track the best score over the root
actions (`alpha` is kept equal to the best score; the root never prunes). -/
def rootLoop (nplayers : Nat) (max_pid : Int) (depth : Nat) (g : HexGrid)
    (pidx : Nat) : List SAction → Int → Int
  | [], best => best
  | a :: rest, best =>
    let na := fast_apply g pidx nplayers a
    let score := alphabeta nplayers max_pid (depth - 1) na.2.1 na.1 best INF
    let best' := if best < score then score else best
    rootLoop nplayers max_pid depth g pidx rest best'

/-- The score returned by `search_at_depth` (the fixed-depth search
variant), with the timeout never firing. -/
def search_at_depth_score (g : HexGrid) (pidx nplayers : Nat) (depth : Nat) : Int :=
  rootLoop nplayers (pidx : Int) depth g pidx (get_search_actions g (pidx : Int)) (-INF)

/-! ### Specification-side definitions

These definitions transcribe the *spec's words* (not the code) and are
compared against the source-derived functions above in the claim
theorems. -/

/-- Spec wording: defense power of a cell is its unit's power, raised to
at least 1 if it holds a capital and to at least 2 if it holds a castle. -/
def defense_power_spec (c : Hex) : Int :=
  max (unit_power c.unit)
    (max (if c.has_capital then 1 else 0) (if c.has_castle then 2 else 0))

/-- Spec wording: relative power of a cell is the maximum of that cell's
defense power and the defense power of its same-owner neighbours. -/
def relative_power_spec (g : HexGrid) (p : Pos) : Int :=
  ((neighborsPos g p).filter fun n => (g.cells n).owner = (g.cells p).owner).foldr
    (fun n acc => max (defense_power_spec (g.cells n)) acc)
    (defense_power_spec (g.cells p))

/-- Spec wording for one cell of the tree-growth pass: graves of the
acting player become trees (palm if coastal, pine otherwise); the acting
player's truly empty cells sprout a palm when coastal and adjacent to a
snapshot palm, or a pine when inland and adjacent to at least two
snapshot pines; everything else is untouched. -/
def grow_trees_spec (g : HexGrid) (pid : Int) (p : Pos) : Hex :=
  let c := g.cells p
  if inBounds g p ∧ c.is_land ∧ c.owner = pid then
    if c.grave then
      { c with
        unit := if is_coastal g p then UnitType.TREE_PALM else UnitType.TREE_PINE,
        grave := false }
    else if c.unit = UnitType.NONE ∧ ¬c.has_capital ∧ ¬c.has_castle then
      if is_coastal g p then
        if (neighborsPos g p).any (fun n => decide (origPalm g n)) then
          { c with unit := UnitType.TREE_PALM }
        else c
      else
        if 2 ≤ (neighborsPos g p).countP (fun n => decide (origPine g n)) then
          { c with unit := UnitType.TREE_PINE }
        else c
    else c
  else c

/-- Same-owner land reachability: the connectivity relation that
`flood_fill` computes.  A step moves to a neighbour that is land and has
the given owner. -/
inductive Reach (g : HexGrid) (owner : Int) : Pos → Pos → Prop where
  | refl (p : Pos) : Reach g owner p p
  | tail {p q r : Pos} : Reach g owner p q → r ∈ neighborsPos g q →
      (g.cells r).is_land = true → (g.cells r).owner = owner → Reach g owner p r

/-! ### Concrete scenario material for witnesses and counterexamples -/

/-- Build a grid from an association list of cells (everything else is
water). -/
def gridOfList (w h : Nat) (entries : List (Pos × Hex)) : HexGrid :=
  ⟨w, h, fun p => ((entries.lookup p).getD Hex.default)⟩

/-- A land cell of the given owner and unit. -/
def landCell (o : Int) (u : UnitType) : Hex :=
  ⟨true, o, u, false, false, false, false⟩

/-- A land cell whose unit may still move. -/
def landCellM (o : Int) (u : UnitType) : Hex :=
  ⟨true, o, u, false, false, false, true⟩

/-- A land cell holding a capital. -/
def landCellCap (o : Int) : Hex :=
  ⟨true, o, UnitType.NONE, true, false, false, false⟩

/-- A land cell holding a grave. -/
def landCellGrave (o : Int) : Hex :=
  ⟨true, o, UnitType.NONE, false, false, true, false⟩

/-- Bankruptcy scenario: three land cells, one spearman (wage 6), so
income 3, wages 6, net −3 against a treasury of 2. -/
def bankruptGrid : HexGrid := gridOfList 3 1
  [(((0 : Int), (0 : Int)), landCell 0 UnitType.SPEARMAN),
   (((1 : Int), (0 : Int)), landCell 0 UnitType.NONE),
   (((2 : Int), (0 : Int)), landCell 0 UnitType.NONE)]

def bankruptTerritory : Territory :=
  ⟨[((0 : Int), (0 : Int)), ((1 : Int), (0 : Int)), ((2 : Int), (0 : Int))], 0, 2⟩

/-- Merge-loss scenario: a 4×1 chain.  Player 0 owns the capital-less
size-1 territory {(0,0)} with 10 gold and a movable peasant, cell (1,0)
is neutral, and {(2,0),(3,0)} is a second player-0 territory with 7 gold
and its capital at (3,0).  Capturing (1,0) merges all of player 0's land. -/
def mergeGrid : HexGrid := gridOfList 4 1
  [(((0 : Int), (0 : Int)), landCellM 0 UnitType.PEASANT),
   (((1 : Int), (0 : Int)), landCell (-1) UnitType.NONE),
   (((2 : Int), (0 : Int)), landCell 0 UnitType.NONE),
   (((3 : Int), (0 : Int)), landCellCap 0)]

def mergeState : GameState :=
  ⟨mergeGrid,
   [⟨[((0 : Int), (0 : Int))], 0, 10⟩,
    ⟨[((2 : Int), (0 : Int)), ((3 : Int), (0 : Int))], 0, 7⟩],
   0, 2⟩

/-- Capital-to-capital merge scenario: a 5×1 chain, both player-0
territories hold capitals, the gap (2,0) is neutral, and the capture of
the gap has already been played out on the cells (the peasant moved from
(1,0) onto (2,0)); `refresh_territories` is about to run. -/
def mergeGrid2 : HexGrid := gridOfList 5 1
  [(((0 : Int), (0 : Int)), landCellCap 0),
   (((1 : Int), (0 : Int)), landCell 0 UnitType.NONE),
   (((2 : Int), (0 : Int)), landCell 0 UnitType.PEASANT),
   (((3 : Int), (0 : Int)), landCell 0 UnitType.NONE),
   (((4 : Int), (0 : Int)), landCellCap 0)]

def mergeTerritories2 : List Territory :=
  [⟨[((0 : Int), (0 : Int)), ((1 : Int), (0 : Int))], 0, 10⟩,
   ⟨[((3 : Int), (0 : Int)), ((4 : Int), (0 : Int))], 0, 7⟩]

/-- Combine-overflow scenario: two barons of player 0 side by side in one
territory. -/
def overflowGrid : HexGrid := gridOfList 2 1
  [(((0 : Int), (0 : Int)), landCellM 0 UnitType.BARON),
   (((1 : Int), (0 : Int)), landCellM 0 UnitType.BARON)]

def overflowState : GameState :=
  ⟨overflowGrid, [⟨[((0 : Int), (0 : Int)), ((1 : Int), (0 : Int))], 0, 50⟩], 0, 2⟩

/-- Castle-on-tree scenario: a rich territory with a pine on (1,0). -/
def castleGrid : HexGrid := gridOfList 2 1
  [(((0 : Int), (0 : Int)), landCell 0 UnitType.NONE),
   (((1 : Int), (0 : Int)), landCell 0 UnitType.TREE_PINE)]

def castleState : GameState :=
  ⟨castleGrid, [⟨[((0 : Int), (0 : Int)), ((1 : Int), (0 : Int))], 0, 20⟩], 0, 2⟩

/-- Tree-growth scenario: a grave on the coast next to a palm. -/
def growGrid : HexGrid := gridOfList 3 1
  [(((0 : Int), (0 : Int)), landCellGrave 0),
   (((1 : Int), (0 : Int)), landCell 0 UnitType.NONE),
   (((2 : Int), (0 : Int)), landCell 0 UnitType.TREE_PALM)]

/-! ## Basic lemmas -/

theorem updateCell_cells (g : HexGrid) (p : Pos) (f : Hex → Hex) (q : Pos) :
    (updateCell g p f).cells q = if q = p then f (g.cells p) else g.cells q := by
  simp [updateCell, Function.update_apply]

theorem updateCell_cells_self (g : HexGrid) (p : Pos) (f : Hex → Hex) :
    (updateCell g p f).cells p = f (g.cells p) := by
  simp [updateCell_cells]

theorem updateCell_cells_ne (g : HexGrid) (p : Pos) (f : Hex → Hex) (q : Pos)
    (h : q ≠ p) : (updateCell g p f).cells q = g.cells q := by
  simp [updateCell_cells, h]

theorem unit_power_nonneg (u : UnitType) : 0 ≤ unit_power u := by
  cases u <;> decide

/-- Killing units elsewhere, or a cell that holds no combat unit, leaves
the cell alone. -/
theorem kill_fold_of_not_combat (l : List Pos) (g : HexGrid) (p : Pos)
    (h : (g.cells p).has_combat_unit = false) :
    (l.foldl kill_unit g).cells p = g.cells p := by
  induction l generalizing g with
  | nil => rfl
  | cons q rest ih =>
    have hcell : (kill_unit g q).cells p = g.cells p := by
      unfold kill_unit
      split
      · rw [updateCell_cells]
        split
        · next hpq =>
          subst hpq
          simp_all
        · rfl
      · rfl
    simp only [List.foldl_cons]
    rw [ih (kill_unit g q) (by rw [hcell]; exact h), hcell]

/-- After `_go_bankrupt`'s fold, every member that held a combat unit is
a grave. -/
theorem kill_fold_mem (l : List Pos) (g : HexGrid) (p : Pos)
    (hp : p ∈ l) (hc : (g.cells p).has_combat_unit = true) :
    ((l.foldl kill_unit g).cells p).unit = UnitType.NONE ∧
    ((l.foldl kill_unit g).cells p).grave = true := by
  induction l generalizing g with
  | nil => cases hp
  | cons q rest ih =>
    simp only [List.foldl_cons]
    by_cases hpq : p = q
    · subst hpq
      have h1 : (kill_unit g p).cells p =
          { g.cells p with unit := UnitType.NONE, grave := true, can_move := false } := by
        unfold kill_unit
        rw [if_pos hc, updateCell_cells_self]
      have h2 : ((kill_unit g p).cells p).has_combat_unit = false := by
        rw [h1]; rfl
      rw [kill_fold_of_not_combat rest _ p h2, h1]
      exact ⟨rfl, rfl⟩
    · have hmem : p ∈ rest := by
        rcases List.mem_cons.mp hp with h | h
        · exact absurd h hpq
        · exact h
      have hcell : (kill_unit g q).cells p = g.cells p := by
        unfold kill_unit
        split
        · rw [updateCell_cells_ne _ _ _ _ hpq]
        · rfl
      exact ih (kill_unit g q) hmem (by rw [hcell]; exact hc)

/-! ## C5: bankruptcy in `collect_income` -/

/-- **C5.** For every territory with `gold + net_income < 0`,
`collect_income` turns every member cell that held a combat unit into a
grave (unit removed, grave set) and leaves the treasury at exactly 0; it
returns `true` exactly in this bankruptcy case, and otherwise leaves the
grid untouched and just adds the net income to the treasury. -/
theorem C5_collect_income_bankruptcy (g : HexGrid) (t : Territory) :
    ((collect_income g t).2.2 = true ↔ t.gold + net_income g t < 0) ∧
    (t.gold + net_income g t < 0 →
      (∀ p ∈ t.hexes, (g.cells p).has_combat_unit = true →
        ((collect_income g t).1.cells p).unit = UnitType.NONE ∧
        ((collect_income g t).1.cells p).grave = true) ∧
      (collect_income g t).2.1.gold = 0) ∧
    (0 ≤ t.gold + net_income g t →
      (collect_income g t).1 = g ∧
      (collect_income g t).2.1.gold = t.gold + net_income g t) := by
  unfold collect_income
  split
  · next hneg =>
    refine ⟨by simpa using hneg, fun _ => ⟨fun p hp hc => ?_, rfl⟩, fun hpos => ?_⟩
    · exact kill_fold_mem t.hexes g p hp hc
    · exact absurd hneg (by omega)
  · next hpos =>
    refine ⟨by simpa using hpos, fun hneg => absurd hneg hpos, fun _ => ⟨rfl, rfl⟩⟩

/-- C5 witness: the concrete bankruptcy scenario (treasury 2, net −3).
The spearman's cell becomes a grave and the treasury ends at exactly 0. -/
theorem C5_collect_income_bankruptcy_witness :
    ((collect_income bankruptGrid bankruptTerritory).1.cells
        ((0 : Int), (0 : Int))).grave = true ∧
    (collect_income bankruptGrid bankruptTerritory).2.1.gold = 0 := by
  have h := (C5_collect_income_bankruptcy bankruptGrid bankruptTerritory).2.1 (by decide)
  exact ⟨(h.1 ((0 : Int), (0 : Int)) (by decide) (by decide)).2, h.2⟩

/-! ## C7: the combine cap -/

theorem combine_units_none_of_overflow (a b : UnitType)
    (h : 4 < unit_power a + unit_power b) : combine_units a b = none := by
  rcases Decidable.em (unit_power a = 0 ∨ unit_power b = 0) with h1 | h1
  · rw [combine_units, if_pos h1]
  · rw [combine_units, if_neg h1, if_pos h]

theorem power_unitTypeOfCombinedPower_le (s : Int) :
    unit_power (unitTypeOfCombinedPower s) ≤ 4 := by
  unfold unitTypeOfCombinedPower
  split_ifs <;> decide

set_option maxHeartbeats 1600000 in
/-- Every branch of `move_unit` either reports success or returns
`(false, gs)` with the state untouched. -/
theorem move_unit_cases (gs : GameState) (fp tp : Pos) :
    (move_unit gs fp tp).1 = true ∨ move_unit gs fp tp = (false, gs) := by
  unfold move_unit
  repeat' split
  all_goals first | exact Or.inl rfl | exact Or.inr rfl

/-- Every branch of `buy_peasant` either reports success or returns
`(false, gs)`. -/
theorem buy_peasant_cases (gs : GameState) (ti : Nat) (target : Pos) :
    (buy_peasant gs ti target).1 = true ∨ buy_peasant gs ti target = (false, gs) := by
  unfold buy_peasant
  repeat' split
  all_goals first | exact Or.inl rfl | exact Or.inr rfl

/-- Every branch of `buy_castle` either reports success or returns
`(false, gs)`. -/
theorem buy_castle_cases (gs : GameState) (ti : Nat) (target : Pos) :
    (buy_castle gs ti target).1 = true ∨ buy_castle gs ti target = (false, gs) := by
  unfold buy_castle
  repeat' split
  all_goals first | exact Or.inl rfl | exact Or.inr rfl

set_option maxHeartbeats 1600000 in
/-- **C7.** Combining two combat units never produces a unit of power
above 4: any successful `combine_units` yields power ≤ 4, and both
`move_unit` onto a friendly unit and `buy_peasant` onto an existing unit
are rejected with no state change when the summed powers would exceed 4. -/
theorem C7_combine_cap :
    (∀ a b c : UnitType, combine_units a b = some c → unit_power c ≤ 4) ∧
    (∀ (gs : GameState) (fp tp : Pos),
      (gs.grid.cells tp).owner = gs.pid →
      (gs.grid.cells tp).has_combat_unit = true →
      4 < unit_power (gs.grid.cells tp).unit + unit_power (gs.grid.cells fp).unit →
      move_unit gs fp tp = (false, gs)) ∧
    (∀ (gs : GameState) (ti : Nat) (target : Pos),
      (gs.grid.cells target).has_combat_unit = true →
      4 < unit_power (gs.grid.cells target).unit + unit_power UnitType.PEASANT →
      buy_peasant gs ti target = (false, gs)) := by
  refine ⟨fun a b c h => ?_, fun gs fp tp hown hcomb hover => ?_,
    fun gs ti target hcomb hover => ?_⟩
  · rcases Decidable.em (unit_power a = 0 ∨ unit_power b = 0) with h1 | h1
    · rw [combine_units, if_pos h1] at h
      cases h
    · rcases Decidable.em (4 < unit_power a + unit_power b) with h2 | h2
      · rw [combine_units, if_neg h1, if_pos h2] at h
        cases h
      · rw [combine_units, if_neg h1, if_neg h2] at h
        injection h with h
        subst h
        exact power_unitTypeOfCombinedPower_le _
  · have hcu : combine_units (gs.grid.cells tp).unit (gs.grid.cells fp).unit = none :=
      combine_units_none_of_overflow _ _ (by omega)
    unfold move_unit
    repeat' split
    all_goals simp_all
  · have hcu : combine_units (gs.grid.cells target).unit UnitType.PEASANT = none :=
      combine_units_none_of_overflow _ _ (by omega)
    unfold buy_peasant
    repeat' split
    all_goals simp_all

/-- C7 witness: moving a baron onto a friendly baron is rejected with no
state change, and buying a peasant onto a friendly baron is rejected. -/
theorem C7_combine_cap_witness :
    move_unit overflowState ((0 : Int), (0 : Int)) ((1 : Int), (0 : Int)) =
      (false, overflowState) ∧
    buy_peasant overflowState 0 ((1 : Int), (0 : Int)) = (false, overflowState) := by
  exact ⟨C7_combine_cap.2.1 overflowState ((0 : Int), (0 : Int)) ((1 : Int), (0 : Int))
      (by decide) (by decide) (by decide),
    C7_combine_cap.2.2 overflowState 0 ((1 : Int), (0 : Int)) (by decide) (by decide)⟩

/-! ## C4: failed operations perform no mutation -/

/-- **C4.** Whenever `buy_peasant`, `buy_castle` or `move_unit` returns
`False`, the entire game state (grid, territories, treasuries) is
returned exactly as it was. -/
theorem C4_failure_no_mutation :
    (∀ (gs : GameState) (ti : Nat) (target : Pos),
      (buy_peasant gs ti target).1 = false → (buy_peasant gs ti target).2 = gs) ∧
    (∀ (gs : GameState) (ti : Nat) (target : Pos),
      (buy_castle gs ti target).1 = false → (buy_castle gs ti target).2 = gs) ∧
    (∀ (gs : GameState) (fp tp : Pos),
      (move_unit gs fp tp).1 = false → (move_unit gs fp tp).2 = gs) := by
  refine ⟨fun gs ti target h => ?_, fun gs ti target h => ?_, fun gs fp tp h => ?_⟩
  · rcases buy_peasant_cases gs ti target with hc | hc
    · rw [h] at hc
      cases hc
    · rw [hc]
  · rcases buy_castle_cases gs ti target with hc | hc
    · rw [h] at hc
      cases hc
    · rw [hc]
  · rcases move_unit_cases gs fp tp with hc | hc
    · rw [h] at hc
      cases hc
    · rw [hc]

/-- C4 witness: buying a peasant from a territory with only 7 gold fails
and returns the state unchanged. -/
theorem C4_failure_no_mutation_witness :
    (buy_peasant mergeState 1 ((2 : Int), (0 : Int))).2 = mergeState := by
  exact C4_failure_no_mutation.1 mergeState 1 ((2 : Int), (0 : Int)) (by decide)

/-! ## C1: apply/undo exactness of the reduced search model -/

theorem mem_allPositions (g : HexGrid) (p : Pos) :
    p ∈ allPositions g ↔ inBounds g p := by
  obtain ⟨x, y⟩ := p
  unfold allPositions inBounds
  rw [List.mem_flatMap]
  constructor
  · rintro ⟨c, hc, hm⟩
    rw [List.mem_map] at hm
    obtain ⟨r, hr, he⟩ := hm
    rw [List.mem_range] at hc hr
    have hx : ((c : Int), (r : Int)).1 = x := congrArg Prod.fst he
    have hy : ((c : Int), (r : Int)).2 = y := congrArg Prod.snd he
    simp only at hx hy
    subst hx
    subst hy
    refine ⟨Int.natCast_nonneg c, ?_, Int.natCast_nonneg r, ?_⟩
    · show (c : Int) < (g.width : Int)
      exact_mod_cast hc
    · show (r : Int) < (g.height : Int)
      exact_mod_cast hr
  · rintro ⟨h1, h2, h3, h4⟩
    simp only at h1 h2 h3 h4
    refine ⟨x.toNat, ?_, ?_⟩
    · rw [List.mem_range]
      omega
    · rw [List.mem_map]
      refine ⟨y.toNat, by rw [List.mem_range]; omega, ?_⟩
      rw [Int.toNat_of_nonneg h1, Int.toNat_of_nonneg h3]

theorem nodup_allPositions (g : HexGrid) : (allPositions g).Nodup := by
  unfold allPositions
  rw [List.nodup_flatMap]
  constructor
  · intro c _
    refine List.Nodup.map ?_ (List.nodup_range _)
    intro a b hab
    have : (a : Int) = (b : Int) := congrArg Prod.snd hab
    exact_mod_cast this
  · refine List.Pairwise.imp ?_ (List.pairwise_lt_range _)
    intro a b hab x hxa hxb
    rw [List.mem_map] at hxa hxb
    obtain ⟨r1, -, rfl⟩ := hxa
    obtain ⟨r2, -, he⟩ := hxb
    have hba : (b : Int) = (a : Int) := congrArg Prod.fst he
    have : b = a := by exact_mod_cast hba
    omega

/-- A fold of single-cell restorations leaves untouched positions alone. -/
theorem restore_fold_not_mem (saved : List (Pos × Bool)) (g : HexGrid) (p : Pos)
    (h : p ∉ saved.map Prod.fst) :
    ((saved.foldl (fun g' pc =>
        updateCell g' pc.1 fun c => { c with can_move := pc.2 }) g).cells p) =
      g.cells p := by
  induction saved generalizing g with
  | nil => rfl
  | cons qc rest ih =>
    simp only [List.map_cons, List.mem_cons, not_or] at h
    simp only [List.foldl_cons]
    rw [ih _ h.2, updateCell_cells_ne _ _ _ _ h.1]

/-- A fold of single-cell restorations over an assoc list with
duplicate-free keys realises the lookup. -/
theorem restore_fold_lookup (saved : List (Pos × Bool)) (g : HexGrid) (p : Pos)
    (hnd : (saved.map Prod.fst).Nodup) :
    ((saved.foldl (fun g' pc =>
        updateCell g' pc.1 fun c => { c with can_move := pc.2 }) g).cells p) =
      (match saved.lookup p with
       | some cm => { g.cells p with can_move := cm }
       | none => g.cells p) := by
  induction saved generalizing g with
  | nil => rfl
  | cons qc rest ih =>
    obtain ⟨q, cm⟩ := qc
    simp only [List.map_cons, List.nodup_cons] at hnd
    simp only [List.foldl_cons]
    by_cases hpq : p = q
    · subst hpq
      rw [restore_fold_not_mem rest _ p hnd.1]
      rw [List.lookup, beq_self_eq_true, updateCell_cells_self]
    · rw [ih _ hnd.2, List.lookup, beq_eq_false_iff_ne.mpr hpq]
      rw [updateCell_cells_ne _ _ _ _ hpq]

/-- The keys of the END_TURN snapshot are the filtered grid positions. -/
theorem savedMoves_keys (g : HexGrid) (npid : Int) :
    (savedMoves g npid).map Prod.fst =
      (allPositions g).filter fun p =>
        decide ((g.cells p).owner = npid ∧ (g.cells p).has_combat_unit) := by
  unfold savedMoves
  induction allPositions g with
  | nil => rfl
  | cons q rest ih =>
    simp only [List.filterMap_cons, List.filter_cons]
    by_cases hq : (g.cells q).owner = npid ∧ (g.cells q).has_combat_unit = true
    · rw [if_pos hq, decide_eq_true hq]
      simpa using ih
    · rw [if_neg hq, decide_eq_false hq]
      simpa using ih

theorem savedMoves_lookup_general (g : HexGrid) (npid : Int) (l : List Pos)
    (hnd : l.Nodup) (p : Pos) :
    (l.filterMap fun q =>
        if (g.cells q).owner = npid ∧ (g.cells q).has_combat_unit then
          some (q, (g.cells q).can_move)
        else none).lookup p =
      (if p ∈ l ∧ (g.cells p).owner = npid ∧ (g.cells p).has_combat_unit then
        some (g.cells p).can_move else none) := by
  induction l with
  | nil => simp
  | cons q rest ih =>
    simp only [List.nodup_cons] at hnd
    simp only [List.filterMap_cons, List.mem_cons]
    by_cases hpq : p = q
    · subst hpq
      by_cases hq : (g.cells p).owner = npid ∧ (g.cells p).has_combat_unit = true
      · rw [if_pos hq, List.lookup, beq_self_eq_true,
          if_pos ⟨Or.inl rfl, hq.1, hq.2⟩]
      · rw [if_neg hq, ih hnd.2]
        rw [if_neg (fun hc => hq ⟨hc.2.1, hc.2.2⟩),
          if_neg (fun hc => hq ⟨hc.2.1, hc.2.2⟩)]
    · by_cases hq : (g.cells q).owner = npid ∧ (g.cells q).has_combat_unit = true
      · rw [if_pos hq, List.lookup, beq_eq_false_iff_ne.mpr hpq, ih hnd.2]
        by_cases hin : p ∈ rest ∧ (g.cells p).owner = npid ∧
            (g.cells p).has_combat_unit = true
        · rw [if_pos hin, if_pos ⟨Or.inr hin.1, hin.2⟩]
        · rw [if_neg hin, if_neg (fun hc => ?_)]
          rcases hc.1 with hc1 | hc1
          · exact hpq hc1
          · exact hin ⟨hc1, hc.2⟩
      · rw [if_neg hq, ih hnd.2]
        by_cases hin : p ∈ rest ∧ (g.cells p).owner = npid ∧
            (g.cells p).has_combat_unit = true
        · rw [if_pos hin, if_pos ⟨Or.inr hin.1, hin.2⟩]
        · rw [if_neg hin, if_neg (fun hc => ?_)]
          rcases hc.1 with hc1 | hc1
          · exact hq (hc1 ▸ ⟨hc.2.1, hc.2.2⟩)
          · exact hin ⟨hc1, hc.2⟩

theorem savedMoves_lookup (g : HexGrid) (npid : Int) (p : Pos) :
    (savedMoves g npid).lookup p =
      (if p ∈ allPositions g ∧ (g.cells p).owner = npid ∧
          (g.cells p).has_combat_unit then some (g.cells p).can_move else none) :=
  savedMoves_lookup_general g npid (allPositions g) (nodup_allPositions g) p

set_option maxHeartbeats 800000 in
/-- **C1.** For every reduced search action generated as legal on a grid,
applying `fast_apply` and then `fast_undo` with the returned record
restores the grid field-by-field on every cell. -/
theorem C1_fast_apply_undo_exact (g : HexGrid) (pid : Int) (pidx nplayers : Nat)
    (a : SAction) (hmem : a ∈ get_search_actions g pid) (p : Pos) :
    (fast_undo (fast_apply g pidx nplayers a).2.1
        (fast_apply g pidx nplayers a).2.2).cells p = g.cells p := by
  clear hmem
  cases a with
  | capture fp tp =>
    simp only [fast_apply, fast_undo]
    by_cases h1 : p = tp <;> by_cases h2 : p = fp <;>
      simp_all [updateCell_cells]
  | move fp tp =>
    simp only [fast_apply, fast_undo]
    by_cases h1 : p = tp <;> by_cases h2 : p = fp <;>
      simp_all [updateCell_cells]
  | endTurn =>
    simp only [fast_apply, fast_undo]
    rw [restore_fold_lookup _ _ _ (by
      rw [savedMoves_keys]
      exact (nodup_allPositions g).filter _)]
    rw [savedMoves_lookup]
    by_cases hc : p ∈ allPositions g ∧
        (g.cells p).owner = ((pidx + 1) % nplayers : Nat) ∧
        (g.cells p).has_combat_unit
    · rw [if_pos hc]
      have hb : inBounds g p := (mem_allPositions g p).mp hc.1
      simp only [if_pos (show inBounds g p ∧ _ ∧ _ from ⟨hb, hc.2.1, hc.2.2⟩)]
    · rw [if_neg hc]
      have : ¬(inBounds g p ∧ (g.cells p).owner = ((pidx + 1) % nplayers : Nat) ∧
          (g.cells p).has_combat_unit = true) := by
        intro hcc
        exact hc ⟨(mem_allPositions g p).mpr hcc.1, hcc.2.1, hcc.2.2⟩
      simp only [if_neg this]

/-- C1 witness: the legal capture on the merge scenario round-trips; the
target cell (1,0) is restored exactly. -/
theorem C1_fast_apply_undo_exact_witness :
    SAction.capture ((0 : Int), (0 : Int)) ((1 : Int), (0 : Int)) ∈
      get_search_actions mergeGrid 0 ∧
    (fast_undo (fast_apply mergeGrid 0 2
        (SAction.capture ((0 : Int), (0 : Int)) ((1 : Int), (0 : Int)))).2.1
        (fast_apply mergeGrid 0 2
          (SAction.capture ((0 : Int), (0 : Int)) ((1 : Int), (0 : Int)))).2.2).cells
        ((1 : Int), (0 : Int)) = mergeGrid.cells ((1 : Int), (0 : Int)) :=
  ⟨by decide,
   C1_fast_apply_undo_exact mergeGrid 0 0 2
     (SAction.capture ((0 : Int), (0 : Int)) ((1 : Int), (0 : Int)))
     (by decide) ((1 : Int), (0 : Int))⟩

/-! ## C3: attack legality is the relative-power comparison -/

theorem defense_power_spec_eq (c : Hex) :
    defense_power_spec c = c.defense_power := by
  unfold defense_power_spec Hex.defense_power CAPITAL_DEFENSE CASTLE_DEFENSE
  have := unit_power_nonneg c.unit
  dsimp only
  split_ifs <;> omega

theorem foldr_max_init {α : Type} (f : α → Int) (l : List α) (x v : Int) :
    l.foldr (fun n acc => max (f n) acc) (max x v) =
      max v (l.foldr (fun n acc => max (f n) acc) x) := by
  induction l with
  | nil => exact max_comm x v
  | cons m rest ih =>
    simp only [List.foldr_cons, ih]
    rw [max_left_comm]

theorem foldl_max_filter {α : Type} (P : α → Prop) [DecidablePred P]
    (f : α → Int) (l : List α) (x : Int) :
    l.foldl (fun pw n => if P n then max pw (f n) else pw) x =
      (l.filter fun n => P n).foldr (fun n acc => max (f n) acc) x := by
  induction l generalizing x with
  | nil => rfl
  | cons n rest ih =>
    simp only [List.foldl_cons, List.filter_cons]
    by_cases hn : P n
    · rw [if_pos hn, ih, if_pos (by simpa using hn), List.foldr_cons, foldr_max_init]
    · rw [if_neg hn, ih, if_neg (by simpa using hn)]

/-- The engine's defense-bubble fold computes exactly the spec's relative
power. -/
theorem get_relative_power_eq_spec (g : HexGrid) (p : Pos) :
    get_relative_power g p = relative_power_spec g p := by
  unfold get_relative_power relative_power_spec
  rw [foldl_max_filter (fun n => (g.cells n).owner = (g.cells p).owner)
    (fun n => (g.cells n).defense_power)]
  simp only [defense_power_spec_eq]

set_option maxHeartbeats 1600000 in
/-- **C3.** For `move_unit` onto a cell of a different owner, the move
succeeds exactly when the basic preconditions hold (acting player owns
the source, which carries a movable combat unit; the target is land and
adjacent to the source unit's territory) and the mover's power strictly
exceeds the target's relative power in the spec's sense: the maximum of
the target's defense power and that of its same-owner neighbours, where
defense power is unit power raised to at least 1 by a capital and at
least 2 by a castle. -/
theorem C3_attack_iff_relative_power (gs : GameState) (fp tp : Pos)
    (hto : (gs.grid.cells tp).owner ≠ gs.pid) :
    (move_unit gs fp tp).1 = true ↔
      ((gs.grid.cells fp).owner = gs.pid ∧
       (gs.grid.cells fp).has_combat_unit = true ∧
       (gs.grid.cells fp).can_move = true ∧
       (gs.grid.cells tp).is_land = true ∧
       ∃ st, gs.territories.find? (fun t => t.owner = gs.pid ∧ fp ∈ t.hexes) = some st ∧
         (st.hexes.any fun h => tp ∈ neighborsPos gs.grid h) = true ∧
         relative_power_spec gs.grid tp < unit_power (gs.grid.cells fp).unit) := by
  rw [move_unit]
  by_cases h1 : (gs.grid.cells fp).owner ≠ gs.pid
  · rw [if_pos h1]
    simp [h1]
  · rw [if_neg h1]
    rw [not_not] at h1
    by_cases h2 : ¬(gs.grid.cells fp).has_combat_unit
    · rw [if_pos h2]
      simp only [Bool.not_eq_true] at h2
      simp [h1, h2]
    · rw [if_neg h2]
      rw [not_not] at h2
      by_cases h3 : ¬(gs.grid.cells fp).can_move
      · rw [if_pos h3]
        simp only [Bool.not_eq_true] at h3
        simp [h1, h2, h3]
      · rw [if_neg h3]
        rw [not_not] at h3
        by_cases h4 : ¬(gs.grid.cells tp).is_land
        · rw [if_pos h4]
          simp only [Bool.not_eq_true] at h4
          simp [h1, h2, h3, h4]
        · rw [if_neg h4]
          rw [not_not] at h4
          cases hfind : gs.territories.find? (fun t => t.owner = gs.pid ∧ fp ∈ t.hexes) with
          | none => simp [hfind]
          | some st =>
            dsimp only
            by_cases hadj : ¬((st.hexes.any fun h => tp ∈ neighborsPos gs.grid h) ∨
                tp ∈ st.hexes) ∧ tp ∉ st.hexes
            · rw [if_pos hadj]
              have hnadj : ¬(st.hexes.any fun h => tp ∈ neighborsPos gs.grid h) = true :=
                fun hc => hadj.1 (Or.inl hc)
              simp [h1, h2, h3, h4, hfind, hnadj]
              intro x y hmem hnb
              exact absurd
                (List.any_eq_true.mpr ⟨(x, y), hmem, decide_eq_true hnb⟩) hnadj
            · rw [if_neg hadj]
              rw [if_neg (fun hc => hto hc.1)]
              rw [if_pos hto]
              by_cases hany : ¬(st.hexes.any fun h => tp ∈ neighborsPos gs.grid h)
              · rw [if_pos hany]
                simp only [Bool.not_eq_true] at hany
                simp [h1, h2, h3, h4, hfind, hany]
                intro x y hmem hnb
                have hx : (st.hexes.any fun h =>
                    decide (tp ∈ neighborsPos gs.grid h)) = true :=
                  List.any_eq_true.mpr ⟨(x, y), hmem, decide_eq_true hnb⟩
                rw [hany] at hx
                cases hx
              · rw [if_neg hany]
                rw [not_not] at hany
                by_cases hpow : unit_power (gs.grid.cells fp).unit ≤
                    get_relative_power gs.grid tp
                · rw [if_pos hpow]
                  rw [get_relative_power_eq_spec] at hpow
                  simp only [Prod.fst]
                  constructor
                  · intro hc
                    cases hc
                  · rintro ⟨-, -, -, -, st', hfind', -, hlt⟩
                    omega
                · rw [if_neg hpow]
                  rw [get_relative_power_eq_spec, not_le] at hpow
                  simp only [Prod.fst, true_iff]
                  exact ⟨h1, h2, h3, h4, st, rfl, hany, hpow⟩

/-- C3 witness: the concrete capture of the neutral cell (1,0) by the
peasant on (0,0) succeeds; defense around (1,0) is 0 and peasant power
is 1. -/
theorem C3_attack_iff_relative_power_witness :
    (move_unit mergeState ((0 : Int), (0 : Int)) ((1 : Int), (0 : Int))).1 = true := by
  refine (C3_attack_iff_relative_power mergeState ((0 : Int), (0 : Int))
    ((1 : Int), (0 : Int)) (by decide)).mpr
    ⟨by decide, by decide, by decide, by decide,
     ⟨[((0 : Int), (0 : Int))], 0, 10⟩, by decide, by decide, by decide⟩

/-! ## C9: deterministic single-pass tree growth -/

theorem convertGraves_cells (g : HexGrid) (pid : Int) (q : Pos) :
    (convertGraves g pid).cells q =
      (if inBounds g q ∧ (g.cells q).is_land ∧ (g.cells q).owner = pid ∧
          (g.cells q).grave then
        { g.cells q with
          unit := if is_coastal g q then UnitType.TREE_PALM else UnitType.TREE_PINE,
          grave := false }
      else g.cells q) := rfl

theorem convertGraves_is_land (g : HexGrid) (pid : Int) (q : Pos) :
    ((convertGraves g pid).cells q).is_land = (g.cells q).is_land := by
  rw [convertGraves_cells]
  split <;> rfl

theorem neighborsPos_convertGraves (g : HexGrid) (pid : Int) (p : Pos) :
    neighborsPos (convertGraves g pid) p = neighborsPos g p := rfl

theorem is_coastal_convertGraves (g : HexGrid) (pid : Int) (p : Pos) :
    is_coastal (convertGraves g pid) p = is_coastal g p := by
  unfold is_coastal
  rw [neighborsPos_convertGraves]
  have hc : List.countP (fun n => ((convertGraves g pid).cells n).is_land)
      (neighborsPos g p) =
      List.countP (fun n => (g.cells n).is_land) (neighborsPos g p) :=
    List.countP_congr fun n _ => by rw [convertGraves_is_land]
  rw [hc]

theorem inBounds_convertGraves (g : HexGrid) (pid : Int) (p : Pos) :
    inBounds (convertGraves g pid) p ↔ inBounds g p := Iff.rfl

/-- **C9.** Tree growth is a deterministic single pass computed from the
pre-pass snapshot: on each cell of the acting player, a grave becomes a
palm (coastal) or pine (inland); a truly empty cell becomes a palm when
coastal and adjacent to at least one snapshot palm, or a pine when
inland and adjacent to at least two snapshot pines of any owner; every
other cell is untouched.  The result is a pointwise function of the
original grid, so it does not depend on any evaluation order, and cells
converted from graves in the same pass are never counted as sources. -/
theorem C9_tree_growth (g : HexGrid) (pid : Int) (p : Pos) :
    (grow_trees g pid).cells p = grow_trees_spec g pid p := by
  unfold grow_trees grow_trees_spec spreadTrees
  dsimp only
  rw [convertGraves_cells, is_coastal_convertGraves, neighborsPos_convertGraves]
  by_cases h1 : inBounds g p
  · by_cases h2 : (g.cells p).is_land
    · by_cases h3 : (g.cells p).owner = pid
      · by_cases h4 : (g.cells p).grave
        · by_cases hco : is_coastal g p <;> simp [inBounds_convertGraves, h1, h2, h3, h4, hco]
        · by_cases h5 : (g.cells p).unit = UnitType.NONE
          · by_cases h6 : (g.cells p).has_capital
            · simp [inBounds_convertGraves, h1, h2, h3, h4, h5, h6]
            · by_cases h7 : (g.cells p).has_castle
              · simp [inBounds_convertGraves, h1, h2, h3, h4, h5, h6, h7]
              · by_cases hco : is_coastal g p <;>
                  simp [inBounds_convertGraves, h1, h2, h3, h4, h5, h6, h7, hco]
          · simp [inBounds_convertGraves, h1, h2, h3, h4, h5]
      · simp [inBounds_convertGraves, h1, h2, h3]
    · simp [inBounds_convertGraves, h1, h2]
  · simp [inBounds_convertGraves, h1]

/-! ## C10: buy_castle on a tree or grave cell -/

theorem has_tree_not_combat (c : Hex) (h : c.has_tree = true) :
    c.has_combat_unit = false := by
  unfold Hex.has_tree at h
  unfold Hex.has_combat_unit
  cases hu : c.unit <;> simp [hu] at h ⊢

theorem has_tree_not_empty (c : Hex) (h : c.has_tree = true) :
    c.is_empty_land = false := by
  unfold Hex.has_tree at h
  unfold Hex.is_empty_land
  cases hu : c.unit <;> simp [hu] at h ⊢

theorem mem_buyPeasantActions_type (g : HexGrid) (ti : Nat) (t : Territory)
    (a : Action) (h : a ∈ buyPeasantActions g ti t) :
    a.type = ActionType.BUY_PEASANT := by
  unfold buyPeasantActions at h
  split_ifs at h with hg
  · rcases List.mem_filterMap.mp h with ⟨p, -, hp⟩
    repeat' split at hp
    all_goals (cases hp <;> rfl)
  · cases h

theorem mem_buyCastleActions (g : HexGrid) (ti : Nat) (t : Territory)
    (a : Action) (h : a ∈ buyCastleActions g ti t) :
    ∃ p ∈ t.hexes,
      ((g.cells p).is_empty_land ∨ (g.cells p).grave) ∧
      a = ⟨ActionType.BUY_CASTLE, none, some p, some ti⟩ := by
  unfold buyCastleActions at h
  rcases Decidable.em (CASTLE_COST ≤ t.gold) with hg | hg
  · rw [if_pos hg] at h
    rcases List.mem_filterMap.mp h with ⟨p, hpm, hp⟩
    rcases Decidable.em (((g.cells p).is_empty_land = true ∨ (g.cells p).grave = true) ∧
        ¬(g.cells p).has_castle = true ∧ ¬(g.cells p).has_capital = true) with hc | hc
    · rw [if_pos hc] at hp
      injection hp with hp
      exact ⟨p, hpm, ⟨hc.1, hp.symm⟩⟩
    · rw [if_neg hc] at hp
      cases hp
  · rw [if_neg hg] at h
    cases h

theorem mem_moveActions_type (g : HexGrid) (t : Territory)
    (a : Action) (h : a ∈ moveActions g t) :
    a.type = ActionType.MOVE_UNIT := by
  unfold moveActions at h
  rcases List.mem_flatMap.mp h with ⟨hp, -, hmem⟩
  rcases List.mem_append.mp hmem with hmem | hmem
  · rcases List.mem_filterMap.mp hmem with ⟨q, -, hq⟩
    repeat' split at hq
    all_goals (cases hq <;> rfl)
  · rcases List.mem_filterMap.mp hmem with ⟨q, -, hq⟩
    repeat' split at hq
    all_goals (cases hq <;> rfl)

/-- **C10.** On an in-territory land cell holding a (pure) tree or a
grave — with ownership, no structure, no combat unit and at least the
castle cost in gold — `buy_castle` succeeds: the tree or grave is
destroyed, the castle appears and the cost is deducted.  Yet
`get_legal_actions` never proposes BUY_CASTLE on a tree cell, so this
edge of the interface is reachable only by direct calls. -/
theorem C10_buy_castle_tree_grave (gs : GameState) (ti : Nat) (target : Pos)
    (t : Territory)
    (hget : gs.territories.get? ti = some t)
    (hown : t.owner = gs.pid)
    (hgold : CASTLE_COST ≤ t.gold)
    (hmem : target ∈ t.hexes)
    (hland : (gs.grid.cells target).is_land = true)
    (htg : (gs.grid.cells target).has_tree = true ∨ (gs.grid.cells target).grave = true)
    (hncap : (gs.grid.cells target).has_capital = false)
    (hncas : (gs.grid.cells target).has_castle = false)
    (hncu : (gs.grid.cells target).has_combat_unit = false) :
    (buy_castle gs ti target).1 = true ∧
    ((buy_castle gs ti target).2.grid.cells target).has_castle = true ∧
    ((buy_castle gs ti target).2.grid.cells target).unit = UnitType.NONE ∧
    ((buy_castle gs ti target).2.grid.cells target).grave = false ∧
    (buy_castle gs ti target).2.territories.get? ti =
      some { t with gold := t.gold - CASTLE_COST } ∧
    ((gs.grid.cells target).has_tree = true →
      (gs.grid.cells target).grave = false →
      ∀ a ∈ get_legal_actions gs,
        ¬(a.type = ActionType.BUY_CASTLE ∧ a.to_pos = some target)) := by
  have hred : buy_castle gs ti target =
      (true, { gs with
                grid := updateCell gs.grid target fun c =>
                  { c with has_castle := true, grave := false, unit := UnitType.NONE },
                territories := gs.territories.set ti
                  { t with gold := t.gold - CASTLE_COST } }) := by
    unfold buy_castle
    rw [hget]
    dsimp only
    rw [if_neg (by rw [hown]; exact fun hc => hc rfl)]
    rw [if_neg (by omega)]
    rw [if_neg (by simp [hmem])]
    rw [if_neg (by simp [hncas, hncap])]
    rw [if_neg (by simp [hncu])]
    rw [if_neg (by simp [hland])]
  refine ⟨by rw [hred], ?_, ?_, ?_, ?_, ?_⟩
  · rw [hred]
    simp [updateCell_cells_self]
  · rw [hred]
    simp [updateCell_cells_self]
  · rw [hred]
    simp [updateCell_cells_self]
  · rw [hred]
    show (gs.territories.set ti _).get? ti = _
    rw [List.get?_set_eq, hget]
    rfl
  · intro htree hgrave a hA hAc
    unfold get_legal_actions at hA
    rcases List.mem_append.mp hA with hA | hA
    · rcases List.mem_flatMap.mp hA with ⟨⟨ti', t'⟩, -, hA⟩
      rcases List.mem_append.mp hA with hA | hA
      · rcases List.mem_append.mp hA with hA | hA
        · rw [mem_buyPeasantActions_type _ _ _ _ hA] at hAc
          cases hAc.1
        · rcases mem_buyCastleActions _ _ _ _ hA with ⟨p, -, hcond, rfl⟩
          simp only [Option.some.injEq] at hAc
          rcases hAc with ⟨-, rfl⟩
          rcases hcond with hcond | hcond
          · rw [has_tree_not_empty _ htree] at hcond
            cases hcond
          · rw [hgrave] at hcond
            cases hcond
      · rw [mem_moveActions_type _ _ _ hA] at hAc
        cases hAc.1
    · rcases List.mem_singleton.mp hA with rfl
      cases hAc.1

/-- C10 witness: buying a castle onto the pine at (1,0) of a rich
territory succeeds, destroys the tree and deducts 15 gold, and the
enumerator offers no BUY_CASTLE there. -/
theorem C10_buy_castle_tree_grave_witness :
    (buy_castle castleState 0 ((1 : Int), (0 : Int))).1 = true ∧
    ((buy_castle castleState 0 ((1 : Int), (0 : Int))).2.grid.cells
        ((1 : Int), (0 : Int))).has_castle = true := by
  have h := C10_buy_castle_tree_grave castleState 0 ((1 : Int), (0 : Int))
    ⟨[((0 : Int), (0 : Int)), ((1 : Int), (0 : Int))], 0, 20⟩
    (by decide) (by decide) (by decide) (by decide) (by decide)
    (Or.inl (by decide)) (by decide) (by decide) (by decide)
  exact ⟨h.1, h.2.1⟩

/-! ## Flood-fill correctness

`flood_fill` is shown to return exactly the same-owner land component of
its start cell, without duplicates: soundness and completeness of the
fuelled BFS.  This underpins the capital invariant (C2) and the merge
gold accounting (C6). -/

theorem mem_neighborsPos_of (g : HexGrid) (p q : Pos) (hin : inBounds g q)
    (h : (q.1 - p.1, q.2 - p.2) ∈
      (if p.1 % 2 = 1 then NEIGHBOR_DIRS_ODD else NEIGHBOR_DIRS_EVEN)) :
    q ∈ neighborsPos g p := by
  unfold neighborsPos
  refine List.mem_filterMap.mpr ⟨(q.1 - p.1, q.2 - p.2), h, ?_⟩
  have h1 : p.1 + (q.1 - p.1) = q.1 := by ring
  have h2 : p.2 + (q.2 - p.2) = q.2 := by ring
  simp only [h1, h2]
  rw [if_pos (by simpa using hin)]

theorem neighborsPos_mem_elim (g : HexGrid) (p q : Pos)
    (h : q ∈ neighborsPos g p) :
    inBounds g q ∧ (q.1 - p.1, q.2 - p.2) ∈
      (if p.1 % 2 = 1 then NEIGHBOR_DIRS_ODD else NEIGHBOR_DIRS_EVEN) := by
  unfold neighborsPos at h
  rcases List.mem_filterMap.mp h with ⟨d, hd, hf⟩
  rcases Decidable.em (inBounds g (p.1 + d.1, p.2 + d.2)) with hb | hb
  · rw [if_pos hb] at hf
    injection hf with hf
    subst hf
    refine ⟨hb, ?_⟩
    have : ((p.1 + d.1, p.2 + d.2).1 - p.1, (p.1 + d.1, p.2 + d.2).2 - p.2) = d := by
      obtain ⟨d1, d2⟩ := d
      simp only [Prod.mk.injEq]
      constructor <;> ring
    rw [this]
    exact hd
  · rw [if_neg hb] at hf
    cases hf

set_option maxHeartbeats 1600000 in
/-- Hex adjacency is symmetric for in-bounds cells: the odd-q offset
tables are mutually inverse. -/
theorem neighborsPos_symm (g : HexGrid) (p q : Pos)
    (hp : inBounds g p) (hq : q ∈ neighborsPos g p) :
    p ∈ neighborsPos g q := by
  obtain ⟨hin, hd⟩ := neighborsPos_mem_elim g p q hq
  apply mem_neighborsPos_of g q p hp
  rcases Decidable.em (p.1 % 2 = 1) with hpar | hpar
  · rw [if_pos hpar] at hd
    rcases Decidable.em (q.1 % 2 = 1) with hqar | hqar
    · rw [if_pos hqar]
      simp only [NEIGHBOR_DIRS_ODD, NEIGHBOR_DIRS_EVEN, List.mem_cons,
        List.not_mem_nil, or_false, Prod.mk.injEq] at hd ⊢
      omega
    · rw [if_neg hqar]
      simp only [NEIGHBOR_DIRS_ODD, NEIGHBOR_DIRS_EVEN, List.mem_cons,
        List.not_mem_nil, or_false, Prod.mk.injEq] at hd ⊢
      omega
  · rw [if_neg hpar] at hd
    rcases Decidable.em (q.1 % 2 = 1) with hqar | hqar
    · rw [if_pos hqar]
      simp only [NEIGHBOR_DIRS_ODD, NEIGHBOR_DIRS_EVEN, List.mem_cons,
        List.not_mem_nil, or_false, Prod.mk.injEq] at hd ⊢
      omega
    · rw [if_neg hqar]
      simp only [NEIGHBOR_DIRS_ODD, NEIGHBOR_DIRS_EVEN, List.mem_cons,
        List.not_mem_nil, or_false, Prod.mk.injEq] at hd ⊢
      omega

/-- A cell reached by `Reach` from a valid in-bounds start is itself a
valid in-bounds cell. -/
theorem reach_valid (g : HexGrid) (o : Int) (s q : Pos)
    (hs : inBounds g s ∧ (g.cells s).is_land = true ∧ (g.cells s).owner = o)
    (h : Reach g o s q) :
    inBounds g q ∧ (g.cells q).is_land = true ∧ (g.cells q).owner = o := by
  induction h with
  | refl => exact hs
  | tail _ hnb hland howner _ =>
    exact ⟨(neighborsPos_mem_elim _ _ _ hnb).1, hland, howner⟩

theorem reach_trans (g : HexGrid) (o : Int) (a b c : Pos)
    (h1 : Reach g o a b) (h2 : Reach g o b c) : Reach g o a c := by
  induction h2 with
  | refl => exact h1
  | tail _ hnb hland howner ih => exact Reach.tail ih hnb hland howner

theorem reach_symm (g : HexGrid) (o : Int) (s q : Pos)
    (hs : inBounds g s ∧ (g.cells s).is_land = true ∧ (g.cells s).owner = o)
    (h : Reach g o s q) : Reach g o q s := by
  induction h with
  | refl => exact Reach.refl _
  | tail hsq hnb hland howner ih =>
    rename_i p' q'
    have hq' := reach_valid g o s p' hs hsq
    have hstep : Reach g o q' p' :=
      Reach.tail (Reach.refl _) (neighborsPos_symm g p' q' hq'.1 hnb) hq'.2.1 hq'.2.2
    exact reach_trans g o q' p' s hstep ih

/-- The neighbour-scan step of the BFS preserves the visited-set
invariants, visits every valid scanned neighbour, and extends visited
and queue by the same new cells. -/
theorem scanNbrs_spec (g : HexGrid) (o : Int) (s current : Pos)
    (hcur : Reach g o s current) :
    ∀ (ns visited queue : List Pos),
    (∀ n ∈ ns, n ∈ neighborsPos g current) →
    visited.Nodup →
    (∀ p ∈ visited, inBounds g p ∧ (g.cells p).is_land = true ∧
      (g.cells p).owner = o ∧ Reach g o s p) →
    (scanNbrs g o ns visited queue).1.Nodup ∧
    (∀ p ∈ (scanNbrs g o ns visited queue).1,
      inBounds g p ∧ (g.cells p).is_land = true ∧
      (g.cells p).owner = o ∧ Reach g o s p) ∧
    (∀ p ∈ visited, p ∈ (scanNbrs g o ns visited queue).1) ∧
    (∀ n ∈ ns, (g.cells n).is_land = true → (g.cells n).owner = o →
      n ∈ (scanNbrs g o ns visited queue).1) ∧
    ∃ news, (scanNbrs g o ns visited queue).1.Perm (news ++ visited) ∧
      (scanNbrs g o ns visited queue).2 = queue ++ news := by
  intro ns
  induction ns with
  | nil =>
    intro visited queue _ hnd hv
    exact ⟨hnd, hv, fun p hp => hp, fun n hn => absurd hn (List.not_mem_nil n),
      ⟨[], by simp [scanNbrs], by simp [scanNbrs]⟩⟩
  | cons n ns ih =>
    intro visited queue hns hnd hv
    simp only [scanNbrs]
    rcases Decidable.em (n ∉ visited ∧ (g.cells n).is_land = true ∧
        (g.cells n).owner = o) with hc | hc
    · rw [if_pos hc]
      have hnb : n ∈ neighborsPos g current := hns n (List.mem_cons_self n ns)
      have hn_bundle : inBounds g n ∧ (g.cells n).is_land = true ∧
          (g.cells n).owner = o ∧ Reach g o s n :=
        ⟨(neighborsPos_mem_elim g current n hnb).1, hc.2.1, hc.2.2,
         Reach.tail hcur hnb hc.2.1 hc.2.2⟩
      have hnd' : (n :: visited).Nodup := List.nodup_cons.mpr ⟨hc.1, hnd⟩
      have hv' : ∀ p ∈ n :: visited, inBounds g p ∧ (g.cells p).is_land = true ∧
          (g.cells p).owner = o ∧ Reach g o s p := by
        intro p hp
        rcases List.mem_cons.mp hp with rfl | hp
        · exact hn_bundle
        · exact hv p hp
      obtain ⟨c1, c2, c3, c4, news, hperm, hq⟩ :=
        ih (n :: visited) (queue ++ [n])
          (fun m hm => hns m (List.mem_cons_of_mem _ hm)) hnd' hv'
      refine ⟨c1, c2, fun p hp => c3 p (List.mem_cons_of_mem _ hp), ?_,
        ⟨n :: news, ?_, ?_⟩⟩
      · intro m hm hl ho
        rcases List.mem_cons.mp hm with rfl | hm
        · exact c3 m (List.mem_cons_self _ _)
        · exact c4 m hm hl ho
      · exact hperm.trans List.perm_middle
      · rw [hq, List.append_assoc]
        rfl
    · rw [if_neg hc]
      obtain ⟨c1, c2, c3, c4, hex⟩ :=
        ih visited queue (fun m hm => hns m (List.mem_cons_of_mem _ hm)) hnd hv
      refine ⟨c1, c2, c3, ?_, hex⟩
      intro m hm hl ho
      rcases List.mem_cons.mp hm with rfl | hm
      · have hmv : m ∈ visited := by
          by_contra hnv
          exact hc ⟨hnv, hl, ho⟩
        exact c3 m hmv
      · exact c4 m hm hl ho

/-- The BFS loop, given enough fuel, returns a duplicate-free list that
contains the visited set, consists of valid reachable cells, and is
closed under valid adjacency. -/
theorem floodLoop_spec (g : HexGrid) (o : Int) (s : Pos) :
    ∀ (fuel : Nat) (queue visited result : List Pos),
    visited.Nodup →
    visited.Perm (result ++ queue) →
    (∀ p ∈ visited, inBounds g p ∧ (g.cells p).is_land = true ∧
      (g.cells p).owner = o ∧ Reach g o s p) →
    (∀ p ∈ result, ∀ n ∈ neighborsPos g p,
      (g.cells n).is_land = true → (g.cells n).owner = o → n ∈ visited) →
    (allPositions g).length + 1 - result.length ≤ fuel →
    (floodLoop g o fuel queue visited result).Nodup ∧
    (∀ p ∈ visited, p ∈ floodLoop g o fuel queue visited result) ∧
    (∀ p ∈ floodLoop g o fuel queue visited result,
      inBounds g p ∧ (g.cells p).is_land = true ∧
      (g.cells p).owner = o ∧ Reach g o s p) ∧
    (∀ p ∈ floodLoop g o fuel queue visited result,
      ∀ n ∈ neighborsPos g p, (g.cells n).is_land = true →
        (g.cells n).owner = o → n ∈ floodLoop g o fuel queue visited result) := by
  intro fuel
  induction fuel with
  | zero =>
    intro queue visited result hnd hperm hv hclosed hfuel
    exfalso
    have hndr : (result ++ queue).Nodup := hperm.nodup hnd
    have hndr1 : result.Nodup := hndr.of_append_left
    have hsub : ∀ p ∈ result, p ∈ allPositions g := by
      intro p hp
      have : p ∈ visited := hperm.mem_iff.mpr (List.mem_append_left _ hp)
      exact (mem_allPositions g p).mpr (hv p this).1
    have hcard : result.length ≤ (allPositions g).length := by
      calc result.length = result.toFinset.card :=
            (List.toFinset_card_of_nodup hndr1).symm
        _ ≤ (allPositions g).toFinset.card := by
            apply Finset.card_le_card
            intro x hx
            rw [List.mem_toFinset] at hx ⊢
            exact hsub x hx
        _ ≤ (allPositions g).length := List.toFinset_card_le _
    omega
  | succ fuel ih =>
    intro queue visited result hnd hperm hv hclosed hfuel
    match queue with
    | [] =>
      simp only [floodLoop]
      rw [List.append_nil] at hperm
      have hmem : ∀ p, p ∈ visited ↔ p ∈ result := fun p => hperm.mem_iff
      refine ⟨hperm.nodup hnd, fun p hp => (hmem p).mp hp,
        fun p hp => hv p ((hmem p).mpr hp),
        fun p hp n hn hl ho => (hmem n).mp (hclosed p hp n hn hl ho)⟩
    | current :: rest =>
      simp only [floodLoop]
      have hcur_mem : current ∈ visited :=
        hperm.mem_iff.mpr (List.mem_append_right _ (List.mem_cons_self _ _))
      have hcur := hv current hcur_mem
      obtain ⟨snd, sv, smono, scomp, news, sperm, sq⟩ :=
        scanNbrs_spec g o s current hcur.2.2.2 (neighborsPos g current)
          visited rest (fun n hn => hn) hnd hv
      have hperm' :
          (scanNbrs g o (neighborsPos g current) visited rest).1.Perm
            ((result ++ [current]) ++
              (scanNbrs g o (neighborsPos g current) visited rest).2) := by
        rw [sq]
        refine sperm.trans ?_
        refine ((hperm.append_left news).trans List.perm_append_comm).trans ?_
        simp [List.append_assoc]
      have hclosed' : ∀ p ∈ result ++ [current],
          ∀ n ∈ neighborsPos g p, (g.cells n).is_land = true →
          (g.cells n).owner = o →
          n ∈ (scanNbrs g o (neighborsPos g current) visited rest).1 := by
        intro p hp n hn hl ho
        rcases List.mem_append.mp hp with hp | hp
        · exact smono n (hclosed p hp n hn hl ho)
        · rcases List.mem_singleton.mp hp with rfl
          exact scomp n hn hl ho
      have hfuel' : (allPositions g).length + 1 - (result ++ [current]).length ≤ fuel := by
        rw [List.length_append, List.length_singleton]
        omega
      obtain ⟨r1, r2, r3, r4⟩ := ih _ _ _ snd hperm' sv hclosed' hfuel'
      exact ⟨r1, fun p hp => r2 p (smono p hp), r3, r4⟩

/-- `flood_fill` from a valid in-bounds start returns, without
duplicates, exactly the cells reachable through same-owner land
adjacency. -/
theorem flood_fill_spec (g : HexGrid) (s : Pos) (o : Int)
    (hin : inBounds g s) (hland : (g.cells s).is_land = true)
    (howner : (g.cells s).owner = o) :
    (flood_fill g s o).Nodup ∧
    (∀ p, p ∈ flood_fill g s o ↔ Reach g o s p) := by
  unfold flood_fill
  rw [if_neg (by
    push_neg
    exact ⟨by simp [hland], howner⟩)]
  obtain ⟨r1, r2, r3, r4⟩ := floodLoop_spec g o s ((allPositions g).length + 1)
    [s] [s] []
    (List.nodup_singleton s)
    (by simp)
    (by
      intro p hp
      rcases List.mem_singleton.mp hp with rfl
      exact ⟨hin, hland, howner, Reach.refl _⟩)
    (by intro p hp; cases hp)
    (by simp)
  refine ⟨r1, fun p => ⟨fun hp => (r3 p hp).2.2.2, fun hr => ?_⟩⟩
  induction hr with
  | refl => exact r2 s (List.mem_singleton.mpr rfl)
  | tail hq hnb hl ho ih => exact r4 _ ih _ hnb hl ho

/-- Two flood-fill regions are disjoint unless the second start lies in
the first region: same-owner overlap would connect the two starts. -/
theorem flood_fill_disjoint (g : HexGrid) (s1 s2 : Pos) (o1 o2 : Int)
    (hin1 : inBounds g s1) (hl1 : (g.cells s1).is_land = true)
    (ho1 : (g.cells s1).owner = o1)
    (hin2 : inBounds g s2) (hl2 : (g.cells s2).is_land = true)
    (ho2 : (g.cells s2).owner = o2)
    (hnot : s2 ∉ flood_fill g s1 o1) :
    ∀ p, p ∈ flood_fill g s1 o1 → p ∈ flood_fill g s2 o2 → False := by
  intro p hp1 hp2
  have hs1 := flood_fill_spec g s1 o1 hin1 hl1 ho1
  have hs2 := flood_fill_spec g s2 o2 hin2 hl2 ho2
  have hr1 : Reach g o1 s1 p := (hs1.2 p).mp hp1
  have hr2 : Reach g o2 s2 p := (hs2.2 p).mp hp2
  have hv1 := reach_valid g o1 s1 p ⟨hin1, hl1, ho1⟩ hr1
  have hv2 := reach_valid g o2 s2 p ⟨hin2, hl2, ho2⟩ hr2
  have ho : o2 = o1 := by rw [← hv1.2.2, hv2.2.2]
  subst ho
  have hps2 : Reach g o2 p s2 := reach_symm g o2 s2 p ⟨hin2, hl2, ho2⟩ hr2
  have : Reach g o2 s1 s2 := reach_trans g o2 s1 p s2 hr1 hps2
  exact hnot ((hs1.2 s2).mpr this)

/-! ### Small list bookkeeping lemmas -/

/-- A predicate holding at exactly one element of a duplicate-free list
is counted exactly once. -/
theorem countP_eq_one_of_unique {α : Type} (P : α → Bool) (l : List α) (m : α)
    (hnd : l.Nodup) (hm : m ∈ l) (hPm : P m = true)
    (hother : ∀ p ∈ l, p ≠ m → P p = false) :
    l.countP P = 1 := by
  induction l with
  | nil => cases hm
  | cons a rest ih =>
    simp only [List.nodup_cons] at hnd
    rcases List.mem_cons.mp hm with rfl | hm'
    · rw [List.countP_cons_of_pos _ _ hPm]
      have hz : rest.countP P = 0 := by
        rw [List.countP_eq_zero]
        intro p hp
        have hpm : p ≠ m := fun hc => hnd.1 (hc ▸ hp)
        simp [hother p (List.mem_cons_of_mem _ hp) hpm]
      omega
    · have ha : P a = false := hother a (List.mem_cons_self _ _)
        (fun hc => hnd.1 (hc ▸ hm'))
      rw [List.countP_cons_of_neg _ _ (by simp [ha])]
      exact ih hnd.2 hm' (fun p hp hne => hother p (List.mem_cons_of_mem _ hp) hne)

theorem countP_eq_zero_of_all {α : Type} (P : α → Bool) (l : List α)
    (h : ∀ p ∈ l, P p = false) : l.countP P = 0 := by
  rw [List.countP_eq_zero]
  intro p hp
  simp [h p hp]

theorem lookup_mem_of {α β : Type} [DecidableEq α] (l : List (α × β)) (k : α) (v : β)
    (h : l.lookup k = some v) : (k, v) ∈ l := by
  induction l with
  | nil => cases h
  | cons e rest ih =>
    rw [List.lookup] at h
    rcases Decidable.em (k = e.1) with he | he
    · rw [beq_iff_eq.mpr he] at h
      injection h with h
      subst h
      subst he
      exact List.mem_cons_self _ _
    · rw [beq_eq_false_iff_ne.mpr he] at h
      exact List.mem_cons_of_mem _ (ih h)

theorem lookup_isSome_of_mem {α β : Type} [DecidableEq α] (l : List (α × β))
    (k : α) (v : β) (h : (k, v) ∈ l) : ∃ v', l.lookup k = some v' := by
  induction l with
  | nil => cases h
  | cons e rest ih =>
    rw [List.lookup]
    rcases Decidable.em (k = e.1) with he | he
    · rw [beq_iff_eq.mpr he]
      exact ⟨e.2, rfl⟩
    · rw [beq_eq_false_iff_ne.mpr he]
      rcases List.mem_cons.mp h with rfl | h'
      · exact absurd rfl he
      · exact ih h'

/-! ### `ensure_capital`: locality and the exactly-one-capital shape -/

theorem updateCell_id (g : HexGrid) (p : Pos) :
    updateCell g p (fun c => c) = g := by
  unfold updateCell
  rw [Function.update_eq_self]

theorem firstMaxBy_mem {α : Type} (lt : α → α → Bool) (x : α) (xs : List α) :
    firstMaxBy lt x xs ∈ x :: xs := by
  induction xs generalizing x with
  | nil => exact List.mem_singleton.mpr rfl
  | cons y ys ih =>
    unfold firstMaxBy
    split
    · exact List.mem_cons_of_mem _ (ih y)
    · rcases List.mem_cons.mp (ih x) with h | h
      · exact List.mem_cons.mpr (Or.inl h)
      · exact List.mem_cons_of_mem _ (List.mem_cons_of_mem _ h)

/-- When a capital must be placed, `ensure_capital` is one optional cell
fix-up followed by `place_capital`, both at a single member position. -/
theorem ensure_capital_shape (g : HexGrid) (t : Territory)
    (avoid : Option (List Pos)) (pref : Option Pos)
    (hlen : 2 ≤ t.hexes.length) (hnone : capHex g t = none) :
    ∃ m ∈ t.hexes, ∃ f : Hex → Hex,
      ensure_capital g t avoid pref = place_capital (updateCell g m f) m := by
  unfold ensure_capital
  rw [if_pos hlen, hnone]
  dsimp only
  cases hpp : pref.bind (fun pp => if pp ∈ t.hexes then some pp else none) with
  | some pp =>
    have hmem : pp ∈ t.hexes := by
      rcases Option.bind_eq_some.mp hpp with ⟨a, -, ha⟩
      rcases Decidable.em (a ∈ t.hexes) with h | h
      · rw [if_pos h] at ha
        injection ha with ha
        exact ha ▸ h
      · rw [if_neg h] at ha
        cases ha
    refine ⟨pp, hmem, fun c => c, ?_⟩
    rw [updateCell_id]
  | none =>
    cases hcand : t.hexes.filter (fun p =>
        decide (¬(g.cells p).has_combat_unit = true ∧ ¬(g.cells p).has_castle = true ∧
        ¬(g.cells p).has_tree = true)) with
    | cons c0 cs =>
      have hc0 : c0 ∈ t.hexes :=
        (List.mem_filter.mp (hcand ▸ List.mem_cons_self c0 cs)).1
      cases havoid : avoid with
      | some av =>
        cases hsafe : (c0 :: cs).filter (fun p => decide (p ∉ av)) with
        | cons s0 ss =>
          have hs0 : s0 ∈ t.hexes := by
            have h1 : s0 ∈ (c0 :: cs).filter (fun p => decide (p ∉ av)) :=
              hsafe ▸ List.mem_cons_self s0 ss
            have h2 : s0 ∈ c0 :: cs := (List.mem_filter.mp h1).1
            exact (List.mem_filter.mp (hcand ▸ h2)).1
          refine ⟨s0, hs0, fun c => c, ?_⟩
          rw [updateCell_id]
          dsimp only
          rw [hsafe]
        | nil =>
          refine ⟨c0, hc0, fun c => c, ?_⟩
          rw [updateCell_id]
          dsimp only
          rw [hsafe]
      | none =>
        refine ⟨c0, hc0, fun c => c, ?_⟩
        rw [updateCell_id]
    | nil =>
      cases hcas : t.hexes.filter (fun p => (g.cells p).has_castle) with
      | cons h0 hs =>
        have hh0 : h0 ∈ t.hexes :=
          (List.mem_filter.mp (hcas ▸ List.mem_cons_self h0 hs)).1
        refine ⟨h0, hh0, fun c => { c with has_castle := false }, ?_⟩
        dsimp only
      | nil =>
        cases hunits : t.hexes.filter (fun p => (g.cells p).has_combat_unit) with
        | cons u0 us =>
          have hmem : firstMaxBy
              (fun a b => unit_power (g.cells a).unit < unit_power (g.cells b).unit)
              u0 us ∈ t.hexes := by
            have h1 := firstMaxBy_mem
              (fun a b => unit_power (g.cells a).unit < unit_power (g.cells b).unit)
              u0 us
            exact (List.mem_filter.mp (hunits ▸ h1)).1
          refine ⟨_, hmem,
            fun c => { c with unit := UnitType.NONE, grave := true, can_move := false },
            ?_⟩
          dsimp only
        | nil =>
          cases hhex : t.hexes with
          | nil => rw [hhex] at hlen; cases hlen
          | cons h0 hs =>
            refine ⟨h0, hhex ▸ List.mem_cons_self h0 hs,
              fun c => { c with unit := UnitType.NONE }, ?_⟩
            dsimp only

theorem place_capital_cells_self (g : HexGrid) (m : Pos) :
    ((place_capital g m).cells m).has_capital = true := by
  unfold place_capital
  rw [updateCell_cells_self]

theorem place_capital_cells_ne (g : HexGrid) (m q : Pos) (h : q ≠ m) :
    (place_capital g m).cells q = g.cells q := by
  unfold place_capital
  rw [updateCell_cells_ne _ _ _ _ h]

theorem clearCapFold_false (l : List Pos) (g : HexGrid) (p : Pos)
    (h : ((g.cells p)).has_capital = false) :
    (((l.foldl (fun g' q => updateCell g' q fun c => { c with has_capital := false })
        g).cells p)).has_capital = false := by
  induction l generalizing g with
  | nil => exact h
  | cons q rest ih =>
    simp only [List.foldl_cons]
    apply ih
    rw [updateCell_cells]
    split <;> simp [h]

theorem clearCapFold_mem (l : List Pos) (g : HexGrid) (p : Pos) (hp : p ∈ l) :
    (((l.foldl (fun g' q => updateCell g' q fun c => { c with has_capital := false })
        g).cells p)).has_capital = false := by
  induction l generalizing g with
  | nil => cases hp
  | cons q rest ih =>
    simp only [List.foldl_cons]
    by_cases hpq : p = q
    · subst hpq
      apply clearCapFold_false
      rw [updateCell_cells_self]
    · rcases List.mem_cons.mp hp with h | h
      · exact absurd h hpq
      · exact ih _ h

theorem clearCapFold_not_mem (l : List Pos) (g : HexGrid) (q : Pos) (hq : q ∉ l) :
    ((l.foldl (fun g' p => updateCell g' p fun c => { c with has_capital := false })
        g).cells q) = g.cells q := by
  induction l generalizing g with
  | nil => rfl
  | cons p rest ih =>
    simp only [List.mem_cons, not_or] at hq
    simp only [List.foldl_cons]
    rw [ih _ hq.2, updateCell_cells_ne _ _ _ _ hq.1]

/-- `ensure_capital` never touches cells outside the territory. -/
theorem ensure_capital_untouched (g : HexGrid) (t : Territory)
    (avoid : Option (List Pos)) (pref : Option Pos) (q : Pos)
    (hq : q ∉ t.hexes) :
    (ensure_capital g t avoid pref).cells q = g.cells q := by
  rcases Decidable.em (2 ≤ t.hexes.length) with hlen | hlen
  · cases hcap : capHex g t with
    | some c =>
      unfold ensure_capital
      rw [if_pos hlen, hcap]
    | none =>
      obtain ⟨m, hm, f, heq⟩ := ensure_capital_shape g t avoid pref hlen hcap
      rw [heq, place_capital_cells_ne _ _ _ (fun hc => hq (by rw [hc]; exact hm)),
        updateCell_cells_ne _ _ _ _ (fun hc => hq (by rw [hc]; exact hm))]
  · unfold ensure_capital
    rw [if_neg hlen]
    exact clearCapFold_not_mem _ _ _ hq

/-- With a duplicate-free, capital-free territory of size ≥ 2,
`ensure_capital` leaves exactly one member carrying the capital. -/
theorem ensure_capital_count_one (g : HexGrid) (t : Territory)
    (avoid : Option (List Pos)) (pref : Option Pos)
    (hnd : t.hexes.Nodup) (hlen : 2 ≤ t.hexes.length)
    (hall : ∀ p ∈ t.hexes, ((g.cells p)).has_capital = false) :
    t.hexes.countP
      (fun p => ((ensure_capital g t avoid pref).cells p).has_capital) = 1 := by
  have hnone : capHex g t = none := by
    unfold capHex
    rw [List.find?_eq_none]
    intro p hp
    simp [hall p hp]
  obtain ⟨m, hm, f, heq⟩ := ensure_capital_shape g t avoid pref hlen hnone
  apply countP_eq_one_of_unique _ _ m hnd hm
  · rw [heq, place_capital_cells_self]
  · intro p hp hne
    rw [heq, place_capital_cells_ne _ _ _ hne, updateCell_cells_ne _ _ _ _ hne]
    exact hall p hp

/-- A territory of size ≤ 1 ends with no capital at all. -/
theorem ensure_capital_count_zero (g : HexGrid) (t : Territory)
    (avoid : Option (List Pos)) (pref : Option Pos)
    (hlen : ¬2 ≤ t.hexes.length) :
    t.hexes.countP
      (fun p => ((ensure_capital g t avoid pref).cells p).has_capital) = 0 := by
  apply countP_eq_zero_of_all
  intro p hp
  unfold ensure_capital
  rw [if_neg hlen]
  exact clearCapFold_mem _ _ _ hp

/-! ### `refresh_territories`: the restoration fold and the capital invariant -/

theorem clearCapitals_is_land (g : HexGrid) (p : Pos) :
    ((clearCapitals g).cells p).is_land = (g.cells p).is_land := by
  show (if inBounds g p ∧ (g.cells p).is_land then
      { g.cells p with has_capital := false } else g.cells p).is_land
    = (g.cells p).is_land
  split <;> rfl

theorem clearCapitals_no_capital (g : HexGrid) (p : Pos)
    (hin : inBounds g p) (hl : (g.cells p).is_land = true) :
    ((clearCapitals g).cells p).has_capital = false := by
  show (if inBounds g p ∧ (g.cells p).is_land then
      { g.cells p with has_capital := false } else g.cells p).has_capital
    = false
  rw [if_pos ⟨hin, hl⟩]

theorem restoreTerritory_snd (caps : List CapEntry) (priority : Option Pos)
    (ca : Option (Int × List Pos)) (G : HexGrid) (t : Territory) :
    (restoreTerritory caps priority ca G t).2
      = { t with gold := ((mergedCaps caps t).map fun m => m.2.1).sum } := rfl

theorem refresh_territories_def (g : HexGrid) (ts : List Territory)
    (ca : Option (Int × List Pos)) (mp : Option Pos) :
    refresh_territories g ts ca mp
      = (buildTerritories (clearCapitals g) (all_land (clearCapitals g)) [] []).2.foldl
          (fun (acc : HexGrid × List Territory) t =>
            let gt := restoreTerritory (oldCaps g ts) (priorityCapPos g ts mp) ca acc.1 t
            (gt.1, acc.2 ++ [gt.2]))
          (clearCapitals g, []) := rfl

theorem refresh_fold_snd (caps : List CapEntry) (priority : Option Pos)
    (ca : Option (Int × List Pos)) :
    ∀ (l : List Territory) (G : HexGrid) (acc : List Territory),
    (l.foldl
        (fun (a : HexGrid × List Territory) t =>
          let gt := restoreTerritory caps priority ca a.1 t
          (gt.1, a.2 ++ [gt.2]))
        (G, acc)).2
      = acc ++ l.map fun t =>
          { t with gold := ((mergedCaps caps t).map fun m => m.2.1).sum } := by
  intro l
  induction l with
  | nil => intro G acc; simp
  | cons t0 l ih =>
    intro G acc
    rw [List.foldl_cons]
    dsimp only
    rw [ih, restoreTerritory_snd]
    simp

theorem refresh_fold_fst (caps : List CapEntry) (priority : Option Pos)
    (ca : Option (Int × List Pos)) :
    ∀ (l : List Territory) (G : HexGrid) (acc : List Territory),
    (l.foldl
        (fun (a : HexGrid × List Territory) t =>
          let gt := restoreTerritory caps priority ca a.1 t
          (gt.1, a.2 ++ [gt.2]))
        (G, acc)).1
      = l.foldl (fun h t => (restoreTerritory caps priority ca h t).1) G := by
  intro l
  induction l with
  | nil => intro G acc; rfl
  | cons t0 l ih =>
    intro G acc
    rw [List.foldl_cons, List.foldl_cons]
    dsimp only
    rw [ih]

theorem restoreTerritory_fst_untouched (caps : List CapEntry) (priority : Option Pos)
    (ca : Option (Int × List Pos)) (G : HexGrid) (t : Territory) (q : Pos)
    (hq : q ∉ t.hexes) :
    ((restoreTerritory caps priority ca G t).1).cells q = G.cells q :=
  ensure_capital_untouched G _ _ _ q hq

theorem restore_grid_fold_untouched (caps : List CapEntry) (priority : Option Pos)
    (ca : Option (Int × List Pos)) :
    ∀ (l : List Territory) (G : HexGrid) (q : Pos),
    (∀ t ∈ l, q ∉ t.hexes) →
    (l.foldl (fun h t => (restoreTerritory caps priority ca h t).1) G).cells q
      = G.cells q := by
  intro l
  induction l with
  | nil => intro G q _; rfl
  | cons t0 l ih =>
    intro G q hq
    rw [List.foldl_cons]
    rw [ih _ q fun t ht => hq t (List.mem_cons_of_mem _ ht)]
    exact restoreTerritory_fst_untouched caps priority ca G t0 q
      (hq t0 (List.mem_cons_self _ _))

theorem countP_congr_mem {α : Type} (P Q : α → Bool) (l : List α)
    (h : ∀ a ∈ l, P a = Q a) : l.countP P = l.countP Q := by
  induction l with
  | nil => rfl
  | cons a l ih =>
    rw [List.countP_cons, List.countP_cons,
      ih fun b hb => h b (List.mem_cons_of_mem _ hb), h a (List.mem_cons_self _ _)]

theorem restoreTerritory_fst_count (caps : List CapEntry) (priority : Option Pos)
    (ca : Option (Int × List Pos)) (G : HexGrid) (t : Territory)
    (hnd : t.hexes.Nodup)
    (hall : ∀ p ∈ t.hexes, ((G.cells p)).has_capital = false) :
    t.hexes.countP
        (fun p => (((restoreTerritory caps priority ca G t).1).cells p).has_capital)
      = if 2 ≤ t.hexes.length then 1 else 0 := by
  rcases Decidable.em (2 ≤ t.hexes.length) with hlen | hlen
  · rw [if_pos hlen]
    exact ensure_capital_count_one G
      { t with gold := ((mergedCaps caps t).map fun m => m.2.1).sum } _ _ hnd hlen hall
  · rw [if_neg hlen]
    exact ensure_capital_count_zero G
      { t with gold := ((mergedCaps caps t).map fun m => m.2.1).sum } _ _ hlen

theorem restore_grid_fold_count (caps : List CapEntry) (priority : Option Pos)
    (ca : Option (Int × List Pos)) :
    ∀ (l : List Territory) (G : HexGrid),
    (∀ t ∈ l, t.hexes.Nodup) →
    (l.Pairwise fun a b => ∀ p, p ∈ a.hexes → p ∈ b.hexes → False) →
    (∀ t ∈ l, ∀ p ∈ t.hexes, ((G.cells p)).has_capital = false) →
    ∀ t ∈ l,
      t.hexes.countP
          (fun p =>
            ((l.foldl (fun h t' => (restoreTerritory caps priority ca h t').1) G).cells
                p).has_capital)
        = if 2 ≤ t.hexes.length then 1 else 0 := by
  intro l
  induction l with
  | nil => intro G _ _ _ t ht; cases ht
  | cons t0 l ih =>
    intro G hnd hpw hall t ht
    rw [List.pairwise_cons] at hpw
    rw [List.foldl_cons]
    rcases List.mem_cons.mp ht with heq | ht'
    · subst heq
      rw [countP_congr_mem
        (fun p => ((l.foldl (fun h t' => (restoreTerritory caps priority ca h t').1)
            ((restoreTerritory caps priority ca G t).1)).cells p).has_capital)
        (fun p => (((restoreTerritory caps priority ca G t).1).cells p).has_capital)
        t.hexes
        (fun p hp => by
          dsimp only
          rw [restore_grid_fold_untouched caps priority ca l _ p
            (fun b hb hpb => hpw.1 b hb p hp hpb)])]
      exact restoreTerritory_fst_count caps priority ca G t
        (hnd t (List.mem_cons_self _ _))
        (hall t (List.mem_cons_self _ _))
    · exact ih ((restoreTerritory caps priority ca G t0).1)
        (fun b hb => hnd b (List.mem_cons_of_mem _ hb))
        hpw.2
        (fun b hb p hp => by
          rw [restoreTerritory_fst_untouched caps priority ca G t0 p
            (fun hq => hpw.1 b hb p hq hp)]
          exact hall b (List.mem_cons_of_mem _ hb) p hp)
        t ht'

theorem buildTerritories_inv (g : HexGrid) :
    ∀ (ps visited : List Pos) (ts : List Territory),
    (∀ p ∈ ps, inBounds g p ∧ (g.cells p).is_land = true) →
    (∀ t ∈ ts, ∃ s, inBounds g s ∧ (g.cells s).is_land = true ∧
        (g.cells s).owner = t.owner ∧ t.hexes = flood_fill g s t.owner ∧
        ∀ p ∈ t.hexes, p ∈ visited) →
    (ts.Pairwise fun a b => ∀ p, p ∈ a.hexes → p ∈ b.hexes → False) →
    (∀ t ∈ (buildTerritories g ps visited ts).2, ∃ s, inBounds g s ∧
        (g.cells s).is_land = true ∧ (g.cells s).owner = t.owner ∧
        t.hexes = flood_fill g s t.owner) ∧
    ((buildTerritories g ps visited ts).2.Pairwise
      fun a b => ∀ p, p ∈ a.hexes → p ∈ b.hexes → False) := by
  intro ps
  induction ps with
  | nil =>
    intro visited ts hps hts hpw
    exact ⟨fun t ht => (hts t ht).imp
      (fun s hs => ⟨hs.1, hs.2.1, hs.2.2.1, hs.2.2.2.1⟩), hpw⟩
  | cons p ps ih =>
    intro visited ts hps hts hpw
    simp only [buildTerritories]
    rcases Decidable.em (p ∈ visited ∨ (g.cells p).owner < 0) with hskip | hgo
    · rw [if_pos hskip]
      exact ih visited ts (fun q hq => hps q (List.mem_cons_of_mem _ hq)) hts hpw
    · rw [if_neg hgo]
      obtain ⟨hinp, hlandp⟩ := hps p (List.mem_cons_self _ _)
      apply ih
      · exact fun q hq => hps q (List.mem_cons_of_mem _ hq)
      · intro t ht
        rcases Decidable.em (flood_fill g p (g.cells p).owner = []) with hemp | hne
        · rw [if_pos hemp] at ht
          obtain ⟨s, h1, h2, h3, h4, h5⟩ := hts t ht
          exact ⟨s, h1, h2, h3, h4, fun q hq => List.mem_append_left _ (h5 q hq)⟩
        · rw [if_neg hne] at ht
          rcases List.mem_append.mp ht with hold | hnew
          · obtain ⟨s, h1, h2, h3, h4, h5⟩ := hts t hold
            exact ⟨s, h1, h2, h3, h4, fun q hq => List.mem_append_left _ (h5 q hq)⟩
          · rcases List.mem_singleton.mp hnew with rfl
            exact ⟨p, hinp, hlandp, rfl, rfl,
              fun q hq => List.mem_append_right _ hq⟩
      · rcases Decidable.em (flood_fill g p (g.cells p).owner = []) with hemp | hne
        · rw [if_pos hemp]
          exact hpw
        · rw [if_neg hne]
          apply List.pairwise_append.mpr
          refine ⟨hpw, List.pairwise_singleton _ _, ?_⟩
          intro a ha b hb q hqa hqb
          rcases List.mem_singleton.mp hb with rfl
          obtain ⟨s, h1, h2, h3, h4, h5⟩ := hts a ha
          have hpnv : p ∉ visited := fun hc => hgo (Or.inl hc)
          have hpna : p ∉ flood_fill g s a.owner := by
            rw [← h4]
            exact fun hc => hpnv (h5 p hc)
          have hqa' : q ∈ flood_fill g s a.owner := by
            rw [← h4]
            exact hqa
          exact flood_fill_disjoint g s p a.owner (g.cells p).owner
            h1 h2 h3 hinp hlandp rfl hpna q hqa' hqb

set_option maxHeartbeats 1600000 in
/-- **C2.**  After any call to `refresh_territories`, every produced
territory has a duplicate-free member list carrying exactly one
`has_capital` cell when its size is ≥ 2, and none when its size is ≤ 1. -/
theorem C2_capital_invariant (g : HexGrid) (ts : List Territory)
    (ca : Option (Int × List Pos)) (mp : Option Pos) (T : Territory)
    (hT : T ∈ (refresh_territories g ts ca mp).2) :
    T.hexes.Nodup ∧
    T.hexes.countP
        (fun p => (((refresh_territories g ts ca mp).1).cells p).has_capital)
      = if 2 ≤ T.hexes.length then 1 else 0 := by
  rw [refresh_territories_def] at hT ⊢
  rw [refresh_fold_snd] at hT
  rw [refresh_fold_fst]
  rw [List.nil_append] at hT
  obtain ⟨t, htmem, rfl⟩ := List.mem_map.mp hT
  obtain ⟨hex_inv, hpw⟩ := buildTerritories_inv (clearCapitals g)
    (all_land (clearCapitals g)) [] []
    (fun p hp => by
      have h1 := List.mem_filter.mp hp
      exact ⟨(mem_allPositions _ p).mp h1.1, h1.2⟩)
    (fun t ht => absurd ht (List.not_mem_nil _))
    List.Pairwise.nil
  have hnd : ∀ u ∈ (buildTerritories (clearCapitals g)
      (all_land (clearCapitals g)) [] []).2, u.hexes.Nodup := by
    intro u hu
    obtain ⟨s, h1, h2, h3, h4⟩ := hex_inv u hu
    rw [h4]
    exact (flood_fill_spec _ s u.owner h1 h2 h3).1
  have hall : ∀ u ∈ (buildTerritories (clearCapitals g)
      (all_land (clearCapitals g)) [] []).2,
      ∀ p ∈ u.hexes, ((clearCapitals g).cells p).has_capital = false := by
    intro u hu p hp
    obtain ⟨s, h1, h2, h3, h4⟩ := hex_inv u hu
    rw [h4] at hp
    have hr := ((flood_fill_spec _ s u.owner h1 h2 h3).2 p).mp hp
    have hv := reach_valid _ u.owner s p ⟨h1, h2, h3⟩ hr
    have hl := hv.2.1
    rw [clearCapitals_is_land] at hl
    exact clearCapitals_no_capital g p hv.1 hl
  exact ⟨hnd t htmem,
    restore_grid_fold_count (oldCaps g ts) (priorityCapPos g ts mp) ca
      (buildTerritories (clearCapitals g) (all_land (clearCapitals g)) [] []).2
      (clearCapitals g) hnd hpw hall t htmem⟩

/-- Witness for C2 on the capital-to-capital merge scenario. -/
theorem C2_capital_invariant_witness :
    (⟨[((0 : Int), (0 : Int)), ((1 : Int), (0 : Int)), ((2 : Int), (0 : Int)),
        ((3 : Int), (0 : Int)), ((4 : Int), (0 : Int))], 0, 17⟩ : Territory) ∈
      (refresh_territories mergeGrid2 mergeTerritories2 none
        (some ((2 : Int), (0 : Int)))).2 ∧
    ((⟨[((0 : Int), (0 : Int)), ((1 : Int), (0 : Int)), ((2 : Int), (0 : Int)),
        ((3 : Int), (0 : Int)), ((4 : Int), (0 : Int))], 0, 17⟩ :
          Territory).hexes.Nodup ∧
      (⟨[((0 : Int), (0 : Int)), ((1 : Int), (0 : Int)), ((2 : Int), (0 : Int)),
        ((3 : Int), (0 : Int)), ((4 : Int), (0 : Int))], 0, 17⟩ :
          Territory).hexes.countP
          (fun p => (((refresh_territories mergeGrid2 mergeTerritories2 none
              (some ((2 : Int), (0 : Int)))).1).cells p).has_capital)
        = if 2 ≤ (⟨[((0 : Int), (0 : Int)), ((1 : Int), (0 : Int)),
            ((2 : Int), (0 : Int)), ((3 : Int), (0 : Int)),
            ((4 : Int), (0 : Int))], 0, 17⟩ : Territory).hexes.length
          then 1 else 0) :=
  ⟨by decide,
   C2_capital_invariant mergeGrid2 mergeTerritories2 none
     (some ((2 : Int), (0 : Int))) _ (by decide)⟩

/-! ### `old_caps` and the gold carried across a merge -/

theorem buildTerritories_nodup (g : HexGrid) (u : Territory)
    (hu : u ∈ (buildTerritories g (all_land g) [] []).2) : u.hexes.Nodup := by
  obtain ⟨hex_inv, -⟩ := buildTerritories_inv g (all_land g) [] []
    (fun p hp => by
      have h1 := List.mem_filter.mp hp
      exact ⟨(mem_allPositions _ p).mp h1.1, h1.2⟩)
    (fun t ht => absurd ht (List.not_mem_nil _))
    List.Pairwise.nil
  obtain ⟨s, h1, h2, h3, h4⟩ := hex_inv u hu
  rw [h4]
  exact (flood_fill_spec _ s u.owner h1 h2 h3).1

theorem oldCaps_fold_lookup_none (g : HexGrid) :
    ∀ (ts : List Territory) (acc : List CapEntry) (c : Pos),
    (∀ U ∈ ts, capHex g U ≠ some c) →
    (ts.foldl
        (fun acc t =>
          match capHex g t with
          | some c => (c, t.owner, t.gold, t.hexes.length) :: acc
          | none => acc)
        acc).lookup c
      = acc.lookup c := by
  intro ts
  induction ts with
  | nil => intro acc c _; rfl
  | cons U ts ih =>
    intro acc c hno
    rw [List.foldl_cons]
    cases hU : capHex g U with
    | none =>
      exact ih acc c fun V hV => hno V (List.mem_cons_of_mem _ hV)
    | some c' =>
      rw [ih _ c fun V hV => hno V (List.mem_cons_of_mem _ hV)]
      have hcc : ¬c = c' :=
        fun h => hno U (List.mem_cons_self _ _) (hU.trans (congrArg some h.symm))
      show (((c', U.owner, U.gold, U.hexes.length) :: acc).lookup c) = acc.lookup c
      rw [List.lookup, beq_eq_false_iff_ne.mpr hcc]

theorem oldCaps_fold_lookup_mem (g : HexGrid) :
    ∀ (ts : List Territory) (acc : List CapEntry) (T : Territory) (c : Pos),
    T ∈ ts → capHex g T = some c →
    (∀ U ∈ ts, capHex g U = some c → U = T) →
    (ts.foldl
        (fun acc t =>
          match capHex g t with
          | some c => (c, t.owner, t.gold, t.hexes.length) :: acc
          | none => acc)
        acc).lookup c
      = some (T.owner, T.gold, T.hexes.length) := by
  intro ts
  induction ts with
  | nil => intro acc T c hT _ _; cases hT
  | cons U ts ih =>
    intro acc T c hT hc huniq
    rw [List.foldl_cons]
    rcases Classical.em (∃ V, V ∈ ts ∧ capHex g V = some c) with ⟨V, hV, hVc⟩ | hno
    · have hVT : V = T := huniq V (List.mem_cons_of_mem _ hV) hVc
      exact ih _ T c (hVT ▸ hV) hc
        (fun W hW hWc => huniq W (List.mem_cons_of_mem _ hW) hWc)
    · have hTU : T = U := by
        rcases List.mem_cons.mp hT with h | h
        · exact h
        · exact absurd ⟨T, h, hc⟩ hno
      subst hTU
      rw [hc]
      rw [oldCaps_fold_lookup_none g ts _ c fun V hV hVc => hno ⟨V, hV, hVc⟩]
      show (((c, T.owner, T.gold, T.hexes.length) :: acc).lookup c)
        = some (T.owner, T.gold, T.hexes.length)
      rw [List.lookup, beq_self_eq_true]

theorem oldCaps_fold_mem (g : HexGrid) :
    ∀ (ts : List Territory) (acc : List CapEntry) (e : CapEntry),
    e ∈ ts.foldl
        (fun acc t =>
          match capHex g t with
          | some c => (c, t.owner, t.gold, t.hexes.length) :: acc
          | none => acc)
        acc →
    e ∈ acc ∨ ∃ U, U ∈ ts ∧ capHex g U = some e.1 ∧
      e.2.1 = U.owner ∧ e.2.2.1 = U.gold ∧ e.2.2.2 = U.hexes.length := by
  intro ts
  induction ts with
  | nil => intro acc e he; exact Or.inl he
  | cons U ts ih =>
    intro acc e he
    rw [List.foldl_cons] at he
    cases hU : capHex g U with
    | none =>
      rw [hU] at he
      rcases ih _ e he with h | ⟨V, hV, hVc, h2, h3, h4⟩
      · exact Or.inl h
      · exact Or.inr ⟨V, List.mem_cons_of_mem _ hV, hVc, h2, h3, h4⟩
    | some c' =>
      rw [hU] at he
      rcases ih _ e he with h | ⟨V, hV, hVc, h2, h3, h4⟩
      · have h' : e ∈ (c', U.owner, U.gold, U.hexes.length) :: acc := h
        rcases List.mem_cons.mp h' with heq | hacc
        · subst heq
          exact Or.inr ⟨U, List.mem_cons_self _ _, hU, rfl, rfl, rfl⟩
        · exact Or.inl hacc
      · exact Or.inr ⟨V, List.mem_cons_of_mem _ hV, hVc, h2, h3, h4⟩

theorem lookup_mem_of_lawful {α β : Type} [BEq α] [LawfulBEq α]
    (l : List (α × β)) (k : α) (v : β)
    (h : l.lookup k = some v) : (k, v) ∈ l := by
  induction l with
  | nil => cases h
  | cons e rest ih =>
    rw [List.lookup] at h
    rcases Classical.em (k = e.1) with he | he
    · rw [beq_iff_eq.mpr he] at h
      injection h with h
      subst h
      subst he
      exact List.mem_cons_self _ _
    · rw [beq_eq_false_iff_ne.mpr he] at h
      exact List.mem_cons_of_mem _ (ih h)

theorem oldCaps_lookup_of_cap (g : HexGrid) (ts : List Territory) (T : Territory)
    (c : Pos) (hT : T ∈ ts) (hc : capHex g T = some c)
    (huniq : ∀ U ∈ ts, capHex g U = some c → U = T) :
    (oldCaps g ts).lookup c = some (T.owner, T.gold, T.hexes.length) :=
  oldCaps_fold_lookup_mem g ts [] T c hT hc huniq

theorem oldCaps_mem_src (g : HexGrid) (ts : List Territory) (e : CapEntry)
    (he : e ∈ oldCaps g ts) :
    ∃ U, U ∈ ts ∧ capHex g U = some e.1 ∧
      e.2.1 = U.owner ∧ e.2.2.1 = U.gold ∧ e.2.2.2 = U.hexes.length := by
  rcases oldCaps_fold_mem g ts [] e he with h | h
  · cases h
  · exact h

theorem filterMap_none_of_all {α β : Type} (f : α → Option β) (l : List α)
    (h : ∀ p ∈ l, f p = none) : l.filterMap f = [] := by
  induction l with
  | nil => rfl
  | cons a l ih =>
    rw [List.filterMap_cons, h a (List.mem_cons_self _ _)]
    exact ih fun p hp => h p (List.mem_cons_of_mem _ hp)

theorem filterMap_map_sum_one {α β : Type} (f : α → Option β) (v : β → Int)
    (l : List α) (c : α) (b : β)
    (hnd : l.Nodup) (hc : c ∈ l) (hf : f c = some b)
    (h0 : ∀ p ∈ l, p ≠ c → f p = none) :
    ((l.filterMap f).map v).sum = v b := by
  induction l with
  | nil => cases hc
  | cons a l ih =>
    rw [List.nodup_cons] at hnd
    rw [List.filterMap_cons]
    rcases List.mem_cons.mp hc with heq | hc'
    · subst heq
      rw [hf]
      rw [filterMap_none_of_all f l
        (fun p hp => h0 p (List.mem_cons_of_mem _ hp)
          (fun hpc => hnd.1 (by rw [← hpc]; exact hp)))]
      simp
    · have ha : f a = none := h0 a (List.mem_cons_self _ _)
        (fun hac => hnd.1 (by rw [hac]; exact hc'))
      rw [ha]
      exact ih hnd.2 hc' fun p hp hpc => h0 p (List.mem_cons_of_mem _ hp) hpc

theorem filterMap_map_sum_two {α β : Type} (f : α → Option β) (v : β → Int)
    (l : List α) (c1 c2 : α) (b1 b2 : β)
    (hnd : l.Nodup) (h1 : c1 ∈ l) (h2 : c2 ∈ l) (hne : c1 ≠ c2)
    (hf1 : f c1 = some b1) (hf2 : f c2 = some b2)
    (h0 : ∀ p ∈ l, p ≠ c1 → p ≠ c2 → f p = none) :
    ((l.filterMap f).map v).sum = v b1 + v b2 := by
  induction l with
  | nil => cases h1
  | cons a l ih =>
    rw [List.nodup_cons] at hnd
    rw [List.filterMap_cons]
    rcases List.mem_cons.mp h1 with he1 | h1'
    · have hc2l : c2 ∈ l := by
        rcases List.mem_cons.mp h2 with he2 | h2'
        · exact absurd (he1.trans he2.symm) hne
        · exact h2'
      rw [← he1, hf1]
      rw [List.map_cons, List.sum_cons]
      rw [filterMap_map_sum_one f v l c2 b2 hnd.2 hc2l hf2
        (fun p hp hpc2 => h0 p (List.mem_cons_of_mem _ hp)
          (fun hpc1 => hnd.1 (by rw [← he1, ← hpc1]; exact hp)) hpc2)]
    · rcases List.mem_cons.mp h2 with he2 | h2'
      · rw [← he2, hf2]
        rw [List.map_cons, List.sum_cons]
        rw [filterMap_map_sum_one f v l c1 b1 hnd.2 h1' hf1
          (fun p hp hpc1 => h0 p (List.mem_cons_of_mem _ hp) hpc1
            (fun hpc2 => hnd.1 (by rw [← he2, ← hpc2]; exact hp)))]
        exact Int.add_comm _ _
      · have ha : f a = none := h0 a (List.mem_cons_self _ _)
          (fun hac => hnd.1 (by rw [hac]; exact h1'))
          (fun hac => hnd.1 (by rw [hac]; exact h2'))
        rw [ha]
        exact ih hnd.2 h1' h2'
          fun p hp hp1 hp2 => h0 p (List.mem_cons_of_mem _ hp) hp1 hp2

theorem mergedCaps_sum_two (caps : List CapEntry) (t : Territory)
    (c1 c2 : Pos) (g1 g2 : Int) (s1 s2 : Nat)
    (hnd : t.hexes.Nodup) (h1 : c1 ∈ t.hexes) (h2 : c2 ∈ t.hexes) (hne : c1 ≠ c2)
    (hl1 : caps.lookup c1 = some (t.owner, g1, s1))
    (hl2 : caps.lookup c2 = some (t.owner, g2, s2))
    (h0 : ∀ p ∈ t.hexes, p ≠ c1 → p ≠ c2 →
        ∀ po pg psz, caps.lookup p = some (po, pg, psz) → po ≠ t.owner) :
    ((mergedCaps caps t).map fun m => m.2.1).sum = g1 + g2 := by
  unfold mergedCaps
  refine filterMap_map_sum_two _ _ t.hexes c1 c2 ((c1, g1, s1) : MergedCap)
    ((c2, g2, s2) : MergedCap) hnd h1 h2 hne ?_ ?_ ?_
  · dsimp only
    rw [hl1]
    show (if t.owner = t.owner then some ((c1, g1, s1) : MergedCap) else none)
      = some ((c1, g1, s1) : MergedCap)
    rw [if_pos rfl]
  · dsimp only
    rw [hl2]
    show (if t.owner = t.owner then some ((c2, g2, s2) : MergedCap) else none)
      = some ((c2, g2, s2) : MergedCap)
    rw [if_pos rfl]
  · intro p hp hp1 hp2
    dsimp only
    rcases hlp : caps.lookup p with - | ⟨po, pg, psz⟩
    · rfl
    · show (if po = t.owner then some ((p, pg, psz) : MergedCap) else none) = none
      rw [if_neg (h0 p hp hp1 hp2 po pg psz hlp)]

set_option maxHeartbeats 1600000 in
/-- **C6 (amended).**  When the region produced by `refresh_territories`
contains the capitals of exactly two same-owner pre-merge territories —
each the unique old territory with a capital at its position, and no
other member cell carrying a same-owner old capital — the merged
treasury is exactly the sum of the two pre-merge treasuries.  (The
unamended claim is refuted by `C6_merge_gold_counterexample`: a size-1
territory has no capital, so its gold is dropped by the merge.) -/
theorem C6_merge_gold (g : HexGrid) (ts : List Territory)
    (ca : Option (Int × List Pos)) (mp : Option Pos)
    (T1 T2 R : Territory) (c1 c2 : Pos)
    (hR : R ∈ (refresh_territories g ts ca mp).2)
    (hT1 : T1 ∈ ts) (hT2 : T2 ∈ ts)
    (hc1 : capHex g T1 = some c1) (hc2 : capHex g T2 = some c2)
    (hne : c1 ≠ c2)
    (ho1 : T1.owner = R.owner) (ho2 : T2.owner = R.owner)
    (hm1 : c1 ∈ R.hexes) (hm2 : c2 ∈ R.hexes)
    (huniq1 : ∀ U ∈ ts, capHex g U = some c1 → U = T1)
    (huniq2 : ∀ U ∈ ts, capHex g U = some c2 → U = T2)
    (honly : ∀ p ∈ R.hexes, p ≠ c1 → p ≠ c2 →
        ∀ U ∈ ts, capHex g U = some p → U.owner ≠ R.owner) :
    R.gold = T1.gold + T2.gold := by
  rw [refresh_territories_def] at hR
  rw [refresh_fold_snd] at hR
  rw [List.nil_append] at hR
  obtain ⟨t, htmem, rfl⟩ := List.mem_map.mp hR
  dsimp only at ho1 ho2 hm1 hm2 honly ⊢
  have hnd : t.hexes.Nodup := buildTerritories_nodup (clearCapitals g) t htmem
  have hl1 : (oldCaps g ts).lookup c1 = some (T1.owner, T1.gold, T1.hexes.length) :=
    oldCaps_lookup_of_cap g ts T1 c1 hT1 hc1 huniq1
  have hl2 : (oldCaps g ts).lookup c2 = some (T2.owner, T2.gold, T2.hexes.length) :=
    oldCaps_lookup_of_cap g ts T2 c2 hT2 hc2 huniq2
  rw [ho1] at hl1
  rw [ho2] at hl2
  exact mergedCaps_sum_two (oldCaps g ts) t c1 c2 T1.gold T2.gold
    T1.hexes.length T2.hexes.length hnd hm1 hm2 hne hl1 hl2
    (fun p hp hp1 hp2 po pg psz hlp => by
      obtain ⟨U, hU, hUc, he1, he2, he3⟩ := oldCaps_mem_src g ts (p, po, pg, psz)
        (lookup_mem_of_lawful _ _ _ hlp)
      have he1' : po = U.owner := he1
      rw [he1']
      exact honly p hp hp1 hp2 U hU hUc)

/-- Counterexample to C6 as stated: capturing `(1,0)` in the 4×1 merge
scenario connects the capital-less size-1 territory (10 gold) with the
capital-bearing one (7 gold), and the merged treasury is 7, not 17. -/
theorem C6_merge_gold_counterexample :
    (move_unit mergeState ((0 : Int), (0 : Int)) ((1 : Int), (0 : Int))).1 = true ∧
    mergeState.territories
      = [⟨[((0 : Int), (0 : Int))], 0, 10⟩,
         ⟨[((2 : Int), (0 : Int)), ((3 : Int), (0 : Int))], 0, 7⟩] ∧
    (move_unit mergeState ((0 : Int), (0 : Int)) ((1 : Int), (0 : Int))).2.territories
      = [⟨[((0 : Int), (0 : Int)), ((1 : Int), (0 : Int)), ((2 : Int), (0 : Int)),
          ((3 : Int), (0 : Int))], 0, 7⟩] ∧
    (7 : Int) ≠ 10 + 7 := by
  refine ⟨by decide, by decide, by decide, by decide⟩

/-- Witness for the amended C6 on the capital-to-capital merge scenario:
the merged treasury is 10 + 7. -/
theorem C6_merge_gold_witness :
    (⟨[((0 : Int), (0 : Int)), ((1 : Int), (0 : Int)), ((2 : Int), (0 : Int)),
        ((3 : Int), (0 : Int)), ((4 : Int), (0 : Int))], 0, 17⟩ : Territory) ∈
      (refresh_territories mergeGrid2 mergeTerritories2 none
        (some ((2 : Int), (0 : Int)))).2 ∧
    (⟨[((0 : Int), (0 : Int)), ((1 : Int), (0 : Int)), ((2 : Int), (0 : Int)),
        ((3 : Int), (0 : Int)), ((4 : Int), (0 : Int))], 0, 17⟩ : Territory).gold
      = (⟨[((0 : Int), (0 : Int)), ((1 : Int), (0 : Int))], 0, 10⟩ : Territory).gold
        + (⟨[((3 : Int), (0 : Int)), ((4 : Int), (0 : Int))], 0, 7⟩ : Territory).gold :=
  ⟨by decide,
   C6_merge_gold mergeGrid2 mergeTerritories2 none (some ((2 : Int), (0 : Int)))
     ⟨[((0 : Int), (0 : Int)), ((1 : Int), (0 : Int))], 0, 10⟩
     ⟨[((3 : Int), (0 : Int)), ((4 : Int), (0 : Int))], 0, 7⟩
     ⟨[((0 : Int), (0 : Int)), ((1 : Int), (0 : Int)), ((2 : Int), (0 : Int)),
        ((3 : Int), (0 : Int)), ((4 : Int), (0 : Int))], 0, 17⟩
     ((0 : Int), (0 : Int)) ((4 : Int), (0 : Int))
     (by decide) (by decide) (by decide) (by decide) (by decide) (by decide)
     (by decide) (by decide) (by decide) (by decide) (by decide) (by decide)
     (by decide)⟩

/-! ### C8: alpha-beta equals brute-force minimax -/

theorem if_lt_eq_max (a b : Int) : (if a < b then b else a) = max a b := by
  rcases Decidable.em (a < b) with h | h
  · rw [if_pos h, max_eq_right h.le]
  · rw [if_neg h, max_eq_left (not_lt.mp h)]

theorem if_lt_eq_min (a b : Int) : (if a < b then a else b) = min a b := by
  rcases Decidable.em (a < b) with h | h
  · rw [if_pos h, min_eq_left h.le]
  · rw [if_neg h, min_eq_right (not_lt.mp h)]

theorem mmFoldMax_cons (nplayers : Nat) (max_pid : Int) (d : Nat) (g : HexGrid)
    (pidx : Nat) (a : SAction) (l : List SAction) (v : Int) :
    mmFoldMax nplayers max_pid d g pidx (a :: l) v
      = mmFoldMax nplayers max_pid d g pidx l
          (max v (mmStep nplayers max_pid d g pidx a)) := rfl

theorem mmFoldMin_cons (nplayers : Nat) (max_pid : Int) (d : Nat) (g : HexGrid)
    (pidx : Nat) (a : SAction) (l : List SAction) (v : Int) :
    mmFoldMin nplayers max_pid d g pidx (a :: l) v
      = mmFoldMin nplayers max_pid d g pidx l
          (min v (mmStep nplayers max_pid d g pidx a)) := rfl

theorem mmFoldMax_ge_start (nplayers : Nat) (max_pid : Int) (d : Nat) (g : HexGrid)
    (pidx : Nat) : ∀ (l : List SAction) (v : Int),
    v ≤ mmFoldMax nplayers max_pid d g pidx l v := by
  intro l
  induction l with
  | nil => intro v; exact le_refl v
  | cons a l ih =>
    intro v
    rw [mmFoldMax_cons]
    exact le_trans (le_max_left _ _) (ih _)

theorem mmFoldMin_le_start (nplayers : Nat) (max_pid : Int) (d : Nat) (g : HexGrid)
    (pidx : Nat) : ∀ (l : List SAction) (v : Int),
    mmFoldMin nplayers max_pid d g pidx l v ≤ v := by
  intro l
  induction l with
  | nil => intro v; exact le_refl v
  | cons a l ih =>
    intro v
    rw [mmFoldMin_cons]
    exact le_trans (ih _) (min_le_left _ _)

theorem mmFoldMax_max (nplayers : Nat) (max_pid : Int) (d : Nat) (g : HexGrid)
    (pidx : Nat) : ∀ (l : List SAction) (x y : Int),
    mmFoldMax nplayers max_pid d g pidx l (max x y)
      = max x (mmFoldMax nplayers max_pid d g pidx l y) := by
  intro l
  induction l with
  | nil => intro x y; rfl
  | cons a l ih =>
    intro x y
    rw [mmFoldMax_cons, mmFoldMax_cons, max_assoc, ih]

theorem mmFoldMin_min (nplayers : Nat) (max_pid : Int) (d : Nat) (g : HexGrid)
    (pidx : Nat) : ∀ (l : List SAction) (x y : Int),
    mmFoldMin nplayers max_pid d g pidx l (min x y)
      = min x (mmFoldMin nplayers max_pid d g pidx l y) := by
  intro l
  induction l with
  | nil => intro x y; rfl
  | cons a l ih =>
    intro x y
    rw [mmFoldMin_cons, mmFoldMin_cons, min_assoc, ih]

theorem mmFoldMax_le (nplayers : Nat) (max_pid : Int) (d : Nat) (g : HexGrid)
    (pidx : Nat) (N : Int) : ∀ (l : List SAction) (v : Int),
    v ≤ N → (∀ a ∈ l, mmStep nplayers max_pid d g pidx a ≤ N) →
    mmFoldMax nplayers max_pid d g pidx l v ≤ N := by
  intro l
  induction l with
  | nil => intro v hv _; exact hv
  | cons a l ih =>
    intro v hv hall
    rw [mmFoldMax_cons]
    exact ih _ (max_le hv (hall a (List.mem_cons_self _ _)))
      fun b hb => hall b (List.mem_cons_of_mem _ hb)

theorem mmFoldMin_ge (nplayers : Nat) (max_pid : Int) (d : Nat) (g : HexGrid)
    (pidx : Nat) (N : Int) : ∀ (l : List SAction) (v : Int),
    N ≤ v → (∀ a ∈ l, N ≤ mmStep nplayers max_pid d g pidx a) →
    N ≤ mmFoldMin nplayers max_pid d g pidx l v := by
  intro l
  induction l with
  | nil => intro v hv _; exact hv
  | cons a l ih =>
    intro v hv hall
    rw [mmFoldMin_cons]
    exact ih _ (le_min hv (hall a (List.mem_cons_self _ _)))
      fun b hb => hall b (List.mem_cons_of_mem _ hb)

theorem mmFoldMax_ge_mem (nplayers : Nat) (max_pid : Int) (d : Nat) (g : HexGrid)
    (pidx : Nat) : ∀ (l : List SAction) (v : Int) (a : SAction), a ∈ l →
    mmStep nplayers max_pid d g pidx a ≤ mmFoldMax nplayers max_pid d g pidx l v := by
  intro l
  induction l with
  | nil => intro v a ha; cases ha
  | cons b l ih =>
    intro v a ha
    rw [mmFoldMax_cons]
    rcases List.mem_cons.mp ha with heq | hmem
    · subst heq
      exact le_trans (le_max_right _ _) (mmFoldMax_ge_start _ _ _ _ _ _ _)
    · exact ih _ a hmem

theorem mmFoldMin_le_mem (nplayers : Nat) (max_pid : Int) (d : Nat) (g : HexGrid)
    (pidx : Nat) : ∀ (l : List SAction) (v : Int) (a : SAction), a ∈ l →
    mmFoldMin nplayers max_pid d g pidx l v ≤ mmStep nplayers max_pid d g pidx a := by
  intro l
  induction l with
  | nil => intro v a ha; cases ha
  | cons b l ih =>
    intro v a ha
    rw [mmFoldMin_cons]
    rcases List.mem_cons.mp ha with heq | hmem
    · subst heq
      exact le_trans (mmFoldMin_le_start _ _ _ _ _ _ _) (min_le_right _ _)
    · exact ih _ a hmem

theorem evalStep_bound (g : HexGrid) (pid : Int) (s : Int) (p : Pos) :
    s - 1 ≤ evalStep g pid s p ∧ evalStep g pid s p ≤ s + 1 := by
  unfold evalStep
  split_ifs <;> omega

theorem evalStep_fold_bound (g : HexGrid) (pid : Int) :
    ∀ (l : List Pos) (s : Int),
    s - (l.length : Int) ≤ l.foldl (evalStep g pid) s ∧
    l.foldl (evalStep g pid) s ≤ s + (l.length : Int) := by
  intro l
  induction l with
  | nil => intro s; simp
  | cons p l ih =>
    intro s
    rw [List.foldl_cons]
    obtain ⟨h1, h2⟩ := ih (evalStep g pid s p)
    obtain ⟨h3, h4⟩ := evalStep_bound g pid s p
    simp only [List.length_cons]
    push_cast
    constructor
    · omega
    · omega

theorem minimax_zero (nplayers : Nat) (max_pid : Int) (g : HexGrid) (pidx : Nat) :
    minimax nplayers max_pid 0 g pidx
      = (allPositions g).foldl (evalStep g max_pid) 0 := rfl

theorem minimax_succ (nplayers : Nat) (max_pid : Int) (d : Nat) (g : HexGrid)
    (pidx : Nat) :
    minimax nplayers max_pid (d + 1) g pidx
      = if (pidx : Int) = max_pid then
          mmFoldMax nplayers max_pid d g pidx
            (get_search_actions g (pidx : Int)) (-INF)
        else
          mmFoldMin nplayers max_pid d g pidx
            (get_search_actions g (pidx : Int)) INF := rfl

theorem alphabeta_succ (nplayers : Nat) (max_pid : Int) (d : Nat) (g : HexGrid)
    (pidx : Nat) (alpha beta : Int) :
    alphabeta nplayers max_pid (d + 1) g pidx alpha beta
      = if (pidx : Int) = max_pid then
          abMax (alphabeta nplayers max_pid d) g pidx nplayers beta
            (get_search_actions g (pidx : Int)) (-INF) alpha
        else
          abMin (alphabeta nplayers max_pid d) g pidx nplayers alpha
            (get_search_actions g (pidx : Int)) INF beta := rfl

theorem fast_apply_allPositions (g : HexGrid) (pidx nplayers : Nat) (a : SAction) :
    allPositions (fast_apply g pidx nplayers a).2.1 = allPositions g := by
  cases a <;> rfl

theorem endTurn_mem_actions (g : HexGrid) (pid : Int) :
    SAction.endTurn ∈ get_search_actions g pid := by
  unfold get_search_actions
  exact List.mem_append_right _ (List.mem_singleton.mpr rfl)

theorem minimax_bound (nplayers : Nat) (max_pid : Int) :
    ∀ (d : Nat) (g : HexGrid) (pidx : Nat),
    -((allPositions g).length : Int) ≤ minimax nplayers max_pid d g pidx ∧
    minimax nplayers max_pid d g pidx ≤ ((allPositions g).length : Int) := by
  intro d
  induction d with
  | zero =>
    intro g pidx
    rw [minimax_zero]
    obtain ⟨h1, h2⟩ := evalStep_fold_bound g max_pid (allPositions g) 0
    constructor
    · omega
    · omega
  | succ d ih =>
    intro g pidx
    rw [minimax_succ]
    have hstep : ∀ a : SAction,
        -((allPositions g).length : Int) ≤ mmStep nplayers max_pid d g pidx a ∧
        mmStep nplayers max_pid d g pidx a ≤ ((allPositions g).length : Int) := by
      intro a
      have h := ih (fast_apply g pidx nplayers a).2.1 (fast_apply g pidx nplayers a).1
      rw [fast_apply_allPositions] at h
      exact h
    have hINF : INF = 100000 := rfl
    have hN0 : (0 : Int) ≤ ((allPositions g).length : Int) := Int.natCast_nonneg _
    rcases Decidable.em ((pidx : Int) = max_pid) with hmax | hmin
    · rw [if_pos hmax]
      constructor
      · have hm := mmFoldMax_ge_mem nplayers max_pid d g pidx
          (get_search_actions g (pidx : Int)) (-INF) SAction.endTurn
          (endTurn_mem_actions g (pidx : Int))
        have hs := (hstep SAction.endTurn).1
        omega
      · exact mmFoldMax_le nplayers max_pid d g pidx _ _ (-INF) (by omega)
          fun a _ => (hstep a).2
    · rw [if_neg hmin]
      constructor
      · exact mmFoldMin_ge nplayers max_pid d g pidx _ _ INF (by omega)
          fun a _ => (hstep a).1
      · have hm := mmFoldMin_le_mem nplayers max_pid d g pidx
          (get_search_actions g (pidx : Int)) INF SAction.endTurn
          (endTurn_mem_actions g (pidx : Int))
        have hs := (hstep SAction.endTurn).2
        omega

set_option maxHeartbeats 3200000 in
theorem abMax_spec (nplayers : Nat) (max_pid : Int) (d : Nat)
    (hrec : ∀ (g' : HexGrid) (pidx' : Nat) (al bt : Int),
      al < bt → -INF ≤ al → bt ≤ INF →
      (alphabeta nplayers max_pid d g' pidx' al bt ≤ al →
        minimax nplayers max_pid d g' pidx'
          ≤ alphabeta nplayers max_pid d g' pidx' al bt) ∧
      (al < alphabeta nplayers max_pid d g' pidx' al bt →
        alphabeta nplayers max_pid d g' pidx' al bt < bt →
        alphabeta nplayers max_pid d g' pidx' al bt
          = minimax nplayers max_pid d g' pidx') ∧
      (bt ≤ alphabeta nplayers max_pid d g' pidx' al bt →
        alphabeta nplayers max_pid d g' pidx' al bt
          ≤ minimax nplayers max_pid d g' pidx'))
    (g : HexGrid) (pidx : Nat) (beta : Int) (hbhi : beta ≤ INF) :
    ∀ (rest : List SAction) (value alpha : Int),
    value ≤ alpha → alpha < beta → -INF ≤ alpha →
    (value ≤ abMax (alphabeta nplayers max_pid d) g pidx nplayers beta
        rest value alpha) ∧
    (abMax (alphabeta nplayers max_pid d) g pidx nplayers beta rest value alpha
        ≤ alpha →
      mmFoldMax nplayers max_pid d g pidx rest value
        ≤ abMax (alphabeta nplayers max_pid d) g pidx nplayers beta
            rest value alpha) ∧
    (alpha < abMax (alphabeta nplayers max_pid d) g pidx nplayers beta
        rest value alpha →
      abMax (alphabeta nplayers max_pid d) g pidx nplayers beta rest value alpha
        < beta →
      abMax (alphabeta nplayers max_pid d) g pidx nplayers beta rest value alpha
        = mmFoldMax nplayers max_pid d g pidx rest value) ∧
    (beta ≤ abMax (alphabeta nplayers max_pid d) g pidx nplayers beta
        rest value alpha →
      abMax (alphabeta nplayers max_pid d) g pidx nplayers beta rest value alpha
        ≤ mmFoldMax nplayers max_pid d g pidx rest value) := by
  intro rest
  induction rest with
  | nil =>
    intro value alpha hva hab halo
    exact ⟨le_refl _, fun _ => le_refl _, fun _ _ => rfl, fun _ => le_refl _⟩
  | cons a rest ih =>
    intro value alpha hva hab halo
    obtain ⟨hC1, hC2, hC3⟩ := hrec (fast_apply g pidx nplayers a).2.1
      (fast_apply g pidx nplayers a).1 alpha beta hab halo hbhi
    simp only [abMax, mmFoldMax_cons]
    rw [if_lt_eq_max, if_lt_eq_max]
    rw [show minimax nplayers max_pid d (fast_apply g pidx nplayers a).2.1
        (fast_apply g pidx nplayers a).1
      = mmStep nplayers max_pid d g pidx a from rfl] at hC1 hC2 hC3
    set v := alphabeta nplayers max_pid d (fast_apply g pidx nplayers a).2.1
      (fast_apply g pidx nplayers a).1 alpha beta
    set m := mmStep nplayers max_pid d g pidx a
    rcases Decidable.em (beta ≤ max alpha (max value v)) with hpr | hpr
    · rw [if_pos hpr]
      have hbv : beta ≤ v := by omega
      have hvm := hC3 hbv
      have hgs := mmFoldMax_ge_start nplayers max_pid d g pidx rest (max value m)
      refine ⟨by omega, ?_, ?_, ?_⟩
      · intro hA
        omega
      · intro h1 h2
        omega
      · intro hb
        omega
    · rw [if_neg hpr]
      obtain ⟨ih1, ih2, ih3, ih4⟩ := ih (max value v) (max alpha (max value v))
        (le_max_right _ _) (by omega) (by omega)
      have hW1 : mmFoldMax nplayers max_pid d g pidx rest (max value v)
          = max v (mmFoldMax nplayers max_pid d g pidx rest value) := by
        rw [max_comm value v, mmFoldMax_max]
      have hW2 : mmFoldMax nplayers max_pid d g pidx rest (max value m)
          = max m (mmFoldMax nplayers max_pid d g pidx rest value) := by
        rw [max_comm value m, mmFoldMax_max]
      rw [hW1] at ih2 ih3 ih4
      rw [hW2]
      refine ⟨by omega, ?_, ?_, ?_⟩
      · intro hA
        have h2' := ih2 (by omega)
        have hmv := hC1 (by omega)
        omega
      · intro h1 h2
        rcases Decidable.em (max alpha (max value v)
            < abMax (alphabeta nplayers max_pid d) g pidx nplayers beta rest
                (max value v) (max alpha (max value v))) with hgt | hle
        · rcases Decidable.em (v ≤ alpha) with hv | hv
          · have hmv := hC1 hv
            have h3 := ih3 hgt h2
            omega
          · have hveq := hC2 (not_le.mp hv) (by omega)
            have h3 := ih3 hgt h2
            omega
        · have h2' := ih2 (by omega)
          have hAv : abMax (alphabeta nplayers max_pid d) g pidx nplayers beta rest
              (max value v) (max alpha (max value v)) = v := by omega
          have hveq := hC2 (by omega) (by omega)
          omega
      · intro hb
        have h4 := ih4 hb
        rcases le_or_lt (abMax (alphabeta nplayers max_pid d) g pidx nplayers beta
            rest (max value v) (max alpha (max value v)))
          (mmFoldMax nplayers max_pid d g pidx rest value) with hAW | hAW
        · omega
        · have hC3' := hC3 (by omega)
          omega

set_option maxHeartbeats 3200000 in
theorem abMin_spec (nplayers : Nat) (max_pid : Int) (d : Nat)
    (hrec : ∀ (g' : HexGrid) (pidx' : Nat) (al bt : Int),
      al < bt → -INF ≤ al → bt ≤ INF →
      (alphabeta nplayers max_pid d g' pidx' al bt ≤ al →
        minimax nplayers max_pid d g' pidx'
          ≤ alphabeta nplayers max_pid d g' pidx' al bt) ∧
      (al < alphabeta nplayers max_pid d g' pidx' al bt →
        alphabeta nplayers max_pid d g' pidx' al bt < bt →
        alphabeta nplayers max_pid d g' pidx' al bt
          = minimax nplayers max_pid d g' pidx') ∧
      (bt ≤ alphabeta nplayers max_pid d g' pidx' al bt →
        alphabeta nplayers max_pid d g' pidx' al bt
          ≤ minimax nplayers max_pid d g' pidx'))
    (g : HexGrid) (pidx : Nat) (alpha : Int) (halo : -INF ≤ alpha) :
    ∀ (rest : List SAction) (value beta : Int),
    beta ≤ value → alpha < beta → beta ≤ INF →
    (abMin (alphabeta nplayers max_pid d) g pidx nplayers alpha rest value beta
        ≤ value) ∧
    (abMin (alphabeta nplayers max_pid d) g pidx nplayers alpha rest value beta
        ≤ alpha →
      mmFoldMin nplayers max_pid d g pidx rest value
        ≤ abMin (alphabeta nplayers max_pid d) g pidx nplayers alpha
            rest value beta) ∧
    (alpha < abMin (alphabeta nplayers max_pid d) g pidx nplayers alpha
        rest value beta →
      abMin (alphabeta nplayers max_pid d) g pidx nplayers alpha rest value beta
        < beta →
      abMin (alphabeta nplayers max_pid d) g pidx nplayers alpha rest value beta
        = mmFoldMin nplayers max_pid d g pidx rest value) ∧
    (beta ≤ abMin (alphabeta nplayers max_pid d) g pidx nplayers alpha
        rest value beta →
      abMin (alphabeta nplayers max_pid d) g pidx nplayers alpha rest value beta
        ≤ mmFoldMin nplayers max_pid d g pidx rest value) := by
  intro rest
  induction rest with
  | nil =>
    intro value beta hbv hab hbhi
    exact ⟨le_refl _, fun _ => le_refl _, fun _ _ => rfl, fun _ => le_refl _⟩
  | cons a rest ih =>
    intro value beta hbv hab hbhi
    obtain ⟨hC1, hC2, hC3⟩ := hrec (fast_apply g pidx nplayers a).2.1
      (fast_apply g pidx nplayers a).1 alpha beta hab halo hbhi
    simp only [abMin, mmFoldMin_cons]
    rw [if_lt_eq_min, if_lt_eq_min]
    rw [show minimax nplayers max_pid d (fast_apply g pidx nplayers a).2.1
        (fast_apply g pidx nplayers a).1
      = mmStep nplayers max_pid d g pidx a from rfl] at hC1 hC2 hC3
    set v := alphabeta nplayers max_pid d (fast_apply g pidx nplayers a).2.1
      (fast_apply g pidx nplayers a).1 alpha beta
    set m := mmStep nplayers max_pid d g pidx a
    rcases Decidable.em (min (min v value) beta ≤ alpha) with hpr | hpr
    · rw [if_pos hpr]
      have hva : v ≤ alpha := by omega
      have hmv := hC1 hva
      have hls := mmFoldMin_le_start nplayers max_pid d g pidx rest (min value m)
      refine ⟨by omega, ?_, ?_, ?_⟩
      · intro hA
        omega
      · intro h1 h2
        omega
      · intro hb
        omega
    · rw [if_neg hpr]
      obtain ⟨ih1, ih2, ih3, ih4⟩ := ih (min v value) (min (min v value) beta)
        (min_le_left _ _) (by omega) (by omega)
      have hW1 : mmFoldMin nplayers max_pid d g pidx rest (min v value)
          = min v (mmFoldMin nplayers max_pid d g pidx rest value) := by
        rw [mmFoldMin_min]
      have hW2 : mmFoldMin nplayers max_pid d g pidx rest (min value m)
          = min m (mmFoldMin nplayers max_pid d g pidx rest value) := by
        rw [min_comm value m, mmFoldMin_min]
      rw [hW1] at ih2 ih3 ih4
      rw [hW2]
      refine ⟨by omega, ?_, ?_, ?_⟩
      · intro hA
        have h2' := ih2 hA
        rcases le_or_lt v alpha with hv | hv
        · have hmv := hC1 hv
          omega
        · omega
      · intro h1 h2
        rcases Decidable.em (abMin (alphabeta nplayers max_pid d) g pidx nplayers
            alpha rest (min v value) (min (min v value) beta)
            < min (min v value) beta) with hlt | hge
        · rcases le_or_lt beta v with hbltv | hvltb
          · have hvm := hC3 hbltv
            have h3 := ih3 h1 hlt
            omega
          · have hveq := hC2 (by omega) hvltb
            have h3 := ih3 h1 hlt
            omega
        · have h4 := ih4 (by omega)
          have hls : mmFoldMin nplayers max_pid d g pidx rest (min v value)
              ≤ min v value := mmFoldMin_le_start nplayers max_pid d g pidx rest _
          rw [hW1] at hls
          have hveq := hC2 (by omega) (by omega)
          omega
      · intro hb
        have h4 := ih4 (by omega)
        have hC3' := hC3 (by omega)
        omega

theorem alphabeta_correct (nplayers : Nat) (max_pid : Int) :
    ∀ (d : Nat) (g' : HexGrid) (pidx' : Nat) (al bt : Int),
    al < bt → -INF ≤ al → bt ≤ INF →
    (alphabeta nplayers max_pid d g' pidx' al bt ≤ al →
      minimax nplayers max_pid d g' pidx'
        ≤ alphabeta nplayers max_pid d g' pidx' al bt) ∧
    (al < alphabeta nplayers max_pid d g' pidx' al bt →
      alphabeta nplayers max_pid d g' pidx' al bt < bt →
      alphabeta nplayers max_pid d g' pidx' al bt
        = minimax nplayers max_pid d g' pidx') ∧
    (bt ≤ alphabeta nplayers max_pid d g' pidx' al bt →
      alphabeta nplayers max_pid d g' pidx' al bt
        ≤ minimax nplayers max_pid d g' pidx') := by
  intro d
  induction d with
  | zero =>
    intro g pidx alpha beta hab halo hbhi
    have h : alphabeta nplayers max_pid 0 g pidx alpha beta
        = minimax nplayers max_pid 0 g pidx := rfl
    rw [h]
    exact ⟨fun _ => le_refl _, fun _ _ => rfl, fun _ => le_refl _⟩
  | succ d ih =>
    intro g pidx alpha beta hab halo hbhi
    rw [alphabeta_succ, minimax_succ]
    rcases Decidable.em ((pidx : Int) = max_pid) with hmax | hmin
    · rw [if_pos hmax, if_pos hmax]
      obtain ⟨h1, h2, h3, h4⟩ := abMax_spec nplayers max_pid d ih g pidx beta hbhi
        (get_search_actions g (pidx : Int)) (-INF) alpha halo hab halo
      exact ⟨h2, h3, h4⟩
    · rw [if_neg hmin, if_neg hmin]
      obtain ⟨h1, h2, h3, h4⟩ := abMin_spec nplayers max_pid d ih g pidx alpha halo
        (get_search_actions g (pidx : Int)) INF beta hbhi hab hbhi
      exact ⟨h2, h3, h4⟩

theorem rootLoop_spec (nplayers : Nat) (max_pid : Int) (depth : Nat) (g : HexGrid)
    (pidx : Nat) (hN : ((allPositions g).length : Int) < INF) :
    ∀ (rest : List SAction) (best : Int), -INF ≤ best → best < INF →
    rootLoop nplayers max_pid depth g pidx rest best
      = mmFoldMax nplayers max_pid (depth - 1) g pidx rest best := by
  intro rest
  induction rest with
  | nil => intro best _ _; rfl
  | cons a rest ih =>
    intro best hlo hhi
    obtain ⟨hC1, hC2, hC3⟩ := alphabeta_correct nplayers max_pid (depth - 1)
      (fast_apply g pidx nplayers a).2.1 (fast_apply g pidx nplayers a).1 best INF
      hhi hlo (le_refl INF)
    have hbnd := minimax_bound nplayers max_pid (depth - 1)
      (fast_apply g pidx nplayers a).2.1 (fast_apply g pidx nplayers a).1
    rw [fast_apply_allPositions] at hbnd
    simp only [rootLoop, mmFoldMax_cons]
    rw [if_lt_eq_max]
    rw [show minimax nplayers max_pid (depth - 1) (fast_apply g pidx nplayers a).2.1
        (fast_apply g pidx nplayers a).1
      = mmStep nplayers max_pid (depth - 1) g pidx a from rfl] at hC1 hC2 hC3 hbnd
    set v := alphabeta nplayers max_pid (depth - 1)
      (fast_apply g pidx nplayers a).2.1 (fast_apply g pidx nplayers a).1 best INF
    set m := mmStep nplayers max_pid (depth - 1) g pidx a
    have hvI : v < INF := by
      rcases lt_or_le v INF with h | h
      · exact h
      · have := hC3 h
        omega
    have heq : max best v = max best m := by
      rcases le_or_lt v best with h | h
      · have := hC1 h
        omega
      · have := hC2 h hvI
        omega
    rw [heq]
    exact ih (max best m) (by omega) (by omega)

set_option maxHeartbeats 1600000 in
/-- **C8.**  With no timeout firing and a grid whose land-count bound is
below `INF`, the fixed-depth alpha-beta search score equals the
brute-force minimax value over the same reduced action model, with the
max/min role decided by whose turn it is. -/
theorem C8_alphabeta_minimax (g : HexGrid) (pidx nplayers depth : Nat)
    (hd : 1 ≤ depth) (hN : ((allPositions g).length : Int) < INF) :
    search_at_depth_score g pidx nplayers depth
      = minimax nplayers (pidx : Int) depth g pidx := by
  obtain ⟨d, rfl⟩ : ∃ d, depth = d + 1 := ⟨depth - 1, by omega⟩
  unfold search_at_depth_score
  rw [rootLoop_spec nplayers (pidx : Int) (d + 1) g pidx hN
    (get_search_actions g (pidx : Int)) (-INF) (le_refl _) (by decide)]
  rw [minimax_succ, if_pos rfl]
  simp only [Nat.add_sub_cancel]

/-- Witness for C8 on the 4×1 merge grid at depth 2. -/
theorem C8_alphabeta_minimax_witness :
    1 ≤ 2 ∧ ((allPositions mergeGrid).length : Int) < INF ∧
    search_at_depth_score mergeGrid 0 2 2
      = minimax 2 ((0 : Nat) : Int) 2 mergeGrid 0 :=
  ⟨by decide, by decide,
   C8_alphabeta_minimax mergeGrid 0 2 2 (by decide) (by decide)⟩

end Slay
